import Mathlib

/-!
WordleRN: the game logic of `App.js`.

A shallow embedding of the state and the handlers of the `App` component:
the attempt grid `rows`, the cursor `curRow` / `curCol`, the status
`gameState`, the key handler `onKeyPressed`, the status recomputation
`checkGameState` that the `useEffect` on `curRow` runs, and the cell
colouring `getCellBGColor`.

Conventions of the embedding.

* A JavaScript array is a `List`; a cell is a `String` (`""` is the empty
  cell). An index read `a[i]` is `a[i]?`, with `none` for `undefined`.
* A function returns `Option`: `none` means that the JavaScript call does
  not complete in the embedding. That is the case when it throws a
  `TypeError` (an index or a property read on `undefined`, as in
  `updatedRows[curRow][c] = v` with `curRow` outside the grid) and when it
  would write past the end of a row (JavaScript then grows the row with
  holes; rows with holes are not represented).
* `copyArray` builds fresh arrays; on values it is the identity, and the
  sharing of the one row object by `new Array(n).fill(row)` in the initial
  state is not observable, because every write goes to a copy.
-/

namespace WordleRN

/-- Modelled from the spec: the colour table `colors` of `src/constants` is
not part of the sources. Its four entries that `getCellBGColor` returns are
taken as four distinct values: `black` is the default colour, `primary` is
`correct`, `secondary` is `presentElsewhere`, `darkgrey` is `absent`. -/
inductive Color where
  | black
  | primary
  | secondary
  | darkgrey
  deriving DecidableEq, Repr

/-- The three values of `gameState` (`// won, lost, playing`). -/
inductive GameState where
  | playing
  | won
  | lost
  deriving DecidableEq, Repr

/-- The module-level values the component closes over: `letters`, which is
`word.split('')` for the word drawn from the dictionary, and the key
constants `CLEAR` and `ENTER` imported from `src/constants` (not part of the
sources, hence parameters). -/
structure Env where
  letters : List String
  CLEAR : String
  ENTER : String
  deriving DecidableEq, Repr

/-- The four `useState` values of `App`. -/
structure State where
  rows : List (List String)
  curRow : Nat
  curCol : Nat
  gameState : GameState
  deriving DecidableEq, Repr

/-- The constant `NUMBER_OF_TRIES`. -/
def NUMBER_OF_TRIES : Nat := 6

/-- The function `copyArray`: `[...arr.map(rows => [...rows])]`. -/
def copyArray (arr : List (List String)) : List (List String) :=
  arr.map fun rows => rows

/-- The initial values of the four `useState` calls:
`new Array(NUMBER_OF_TRIES).fill(new Array(letters.length).fill(''))`, `0`,
`0` and `'playing'`. -/
def initialState (env : Env) : State :=
  { rows := List.replicate NUMBER_OF_TRIES (List.replicate env.letters.length "")
    curRow := 0
    curCol := 0
    gameState := GameState.playing }

/-- The assignment `arr[r][c] = v` on a grid: `none` when `arr[r]` is
`undefined` (a `TypeError`) or when `c` is past the end of the row. -/
def assignCell (arr : List (List String)) (r c : Nat) (v : String) :
    Option (List (List String)) :=
  match arr[r]? with
  | none => none
  | some row => if c < row.length then some (arr.set r (row.set c v)) else none

/-- The array method `every` with the index passed to the callback, from
start index `i`. -/
def everyFrom (f : String → Nat → Bool) : Nat → List String → Bool
  | _, [] => true
  | i, x :: xs => f x i && everyFrom f (i + 1) xs

/-- The array method `every`: `arr.every((x, i) => f(x, i))`. -/
def every (f : String → Nat → Bool) (arr : List String) : Bool :=
  everyFrom f 0 arr

/-- The array method `includes` of `letters`, applied to a value read from a
cell (`none` is `undefined`, which no array of strings includes). -/
def includes (arr : List String) (x : Option String) : Bool :=
  match x with
  | none => false
  | some v => decide (v ∈ arr)

/-- The function `checkIfWon`: `rows[curRow - 1]` is `undefined` for
`curRow = 0` and for `curRow - 1` outside the grid, and `row.every` then
throws. -/
def checkIfWon (env : Env) (s : State) : Option Bool :=
  if s.curRow = 0 then none
  else
    match s.rows[s.curRow - 1]? with
    | none => none
    | some row => some (every (fun letter i => decide (some letter = env.letters[i]?)) row)

/-- The function `checkIfLost`: `!checkIfWon() && curRow === rows.length`. -/
def checkIfLost (env : Env) (s : State) : Option Bool :=
  (checkIfWon env s).map fun won => !won && decide (s.curRow = s.rows.length)

/-- The function `checkGameState` (the alerts are not modelled): the
condition of the `else if` is evaluated only when the first one is false. -/
def checkGameState (env : Env) (s : State) : Option State :=
  match checkIfWon env s with
  | none => none
  | some won =>
    if won && decide (s.gameState ≠ GameState.won) then
      some { s with gameState := GameState.won }
    else
      match checkIfLost env s with
      | none => none
      | some lost =>
        if lost && decide (s.gameState ≠ GameState.lost) then
          some { s with gameState := GameState.lost }
        else some s

/-- The function `onKeyPressed`. -/
def onKeyPressed (env : Env) (s : State) (key : String) : Option State :=
  if s.gameState ≠ GameState.playing then some s
  else
    let updatedRows := copyArray s.rows
    if key = env.CLEAR then
      let prevCol : Int := (s.curCol : Int) - 1
      if prevCol ≥ 0 then
        (assignCell updatedRows s.curRow prevCol.toNat "").map fun rs =>
          { s with rows := rs, curCol := prevCol.toNat }
      else some s
    else if key = env.ENTER then
      match s.rows[0]? with
      | none => none
      | some row0 =>
        if s.curCol = row0.length then
          some { s with curRow := s.curRow + 1, curCol := 0 }
        else some s
    else
      match s.rows[0]? with
      | none => none
      | some row0 =>
        if s.curCol < row0.length then
          (assignCell updatedRows s.curRow s.curCol key).map fun rs =>
            { s with rows := rs, curCol := s.curCol + 1 }
        else some s

/-- The effect `useEffect(() => { if (curRow > 0) checkGameState() }, [curRow])`,
run on the state of the render that follows a change of `curRow`. -/
def curRowEffect (env : Env) (s : State) : Option State :=
  if s.curRow > 0 then checkGameState env s else some s

/-- One key press as the component processes it: `onKeyPressed`, then the
effect on `curRow` when `curRow` has changed. -/
def press (env : Env) (s : State) (key : String) : Option State :=
  match onKeyPressed env s key with
  | none => none
  | some s1 => if s1.curRow ≠ s.curRow then curRowEffect env s1 else some s1

/-- A sequence of key presses, in order. -/
def pressAll (env : Env) : State → List String → Option State
  | s, [] => some s
  | s, key :: keys =>
    match press env s key with
    | none => none
    | some s1 => pressAll env s1 keys

/-- The function `getCellBGColor`: `rows[row][col]` is read first, and throws
when `rows[row]` is `undefined`. -/
def getCellBGColor (env : Env) (s : State) (row col : Nat) : Option Color :=
  match s.rows[row]? with
  | none => none
  | some r =>
    let letter := r[col]?
    if row ≥ s.curRow then some Color.black
    else if letter = env.letters[col]? then some Color.primary
    else if includes env.letters letter then some Color.secondary
    else some Color.darkgrey

/-- The content of cell `(row, col)` of the grid, `none` outside the grid. -/
def cellAt (s : State) (row col : Nat) : Option String :=
  match s.rows[row]? with
  | none => none
  | some r => r[col]?

/-- The grid of the data model: `NUMBER_OF_TRIES` rows of `letters.length`
cells each. -/
def GridShape (env : Env) (s : State) : Prop :=
  s.rows.length = NUMBER_OF_TRIES ∧ ∀ r ∈ s.rows, r.length = env.letters.length

instance (env : Env) (s : State) : Decidable (GridShape env s) := by
  unfold GridShape; infer_instance

/-- The states reachable from the initial state by key presses. -/
inductive Reachable (env : Env) : State → Prop where
  | init : Reachable env (initialState env)
  | step {s s1 : State} (key : String) :
      Reachable env s → press env s key = some s1 → Reachable env s1

/-- The invariant of the reachable states: the grid has its shape, the
cursor is inside its bounds, a playing state has an active row, a won state
has the puzzle word in the row just completed, and a lost state has used
every row without the last one being the puzzle word. -/
def Inv (env : Env) (s : State) : Prop :=
  GridShape env s ∧ s.curCol ≤ env.letters.length ∧ s.curRow ≤ NUMBER_OF_TRIES ∧
  (s.gameState = GameState.playing → s.curRow < NUMBER_OF_TRIES) ∧
  (s.gameState = GameState.won →
    0 < s.curRow ∧ s.rows[s.curRow - 1]? = some env.letters) ∧
  (s.gameState = GameState.lost →
    s.curRow = NUMBER_OF_TRIES ∧ s.rows[NUMBER_OF_TRIES - 1]? ≠ some env.letters)

/-- The status that `checkGameState` computes after `row` has been submitted
as row number `curRow` (counted from 0) of a playing game. -/
def statusAfter (env : Env) (s : State) (row : List String) : GameState :=
  if row = env.letters then GameState.won
  else if s.curRow + 1 = s.rows.length then GameState.lost
  else GameState.playing

/-- The row that results from writing `keys` into `row` from column `c` on,
one cell per key (what the letter branch of `onKeyPressed` does to the
active row over successive key presses). -/
def writeKeys : List String → Nat → List String → List String
  | row, _, [] => row
  | row, c, key :: keys => writeKeys (row.set c key) (c + 1) keys

/-- Typing and submitting the guesses in order: for each guess its keys,
then `ENTER`. -/
def submitAll (env : Env) : State → List (List String) → Option State
  | s, [] => some s
  | s, guess :: guesses =>
    match pressAll env s (guess ++ [env.ENTER]) with
    | none => none
    | some s1 => submitAll env s1 guesses

/-- The environment of the worked example: the puzzle word `HELLO`. -/
def helloEnv : Env :=
  { letters := ["H", "E", "L", "L", "O"], CLEAR := "CLEAR", ENTER := "ENTER" }

/-- The 26 letter keys: a key value of one character that is a letter. -/
def isLetterKey (key : String) : Bool :=
  match key.data with
  | [c] => c.isAlpha
  | _ => false

/-- The array method `map` with the index passed to the callback, from start
index `i`: `arr.map((x, i) => f(x, i))` is `mapFrom f 0 arr`. -/
def mapFrom {α β : Type} (f : α → Nat → β) : Nat → List α → List β
  | _, [] => []
  | i, x :: xs => f x i :: mapFrom f (i + 1) xs

/-- The array method `filter` with the index passed to the callback, from
start index `i`: `arr.filter((x, i) => f(x, i))` is `filterFrom f 0 arr`. -/
def filterFrom (f : String → Nat → Bool) : Nat → List String → List String
  | _, [] => []
  | i, x :: xs => if f x i then x :: filterFrom f (i + 1) xs else filterFrom f (i + 1) xs

/-- The array method `flatMap` with the index passed to the callback, from
start index `i`: `arr.flatMap((x, i) => f(x, i))` is `flatMapFrom f 0 arr`. -/
def flatMapFrom (f : List String → Nat → List String) : Nat → List (List String) → List String
  | _, [] => []
  | i, x :: xs => f x i ++ flatMapFrom f (i + 1) xs

/-- The array method `join`: the elements separated by `sep`, an `undefined`
element (`none`) counting as the empty string. -/
def join (sep : String) : List (Option String) → String
  | [] => ""
  | [x] => x.getD ""
  | x :: y :: rest => x.getD "" ++ sep ++ join sep (y :: rest)

/-- The text `textToShare` that `shareScore` builds (the clipboard and the
alert are not modelled). The table `colorsToEmoji` of `src/constants` is not
part of the sources and is a parameter: `colorsToEmoji c` is the lookup
`colorsToEmoji[c]`, with `none` for `undefined`. Inside the two `map` calls
`i` is an index of `rows`, so `getCellBGColor(i, j)` does not throw.
`filter(row => row)` keeps the strings that are not empty. -/
def shareScore (env : Env) (colorsToEmoji : Color → Option String) (s : State) : String :=
  let textMap :=
    join "\n"
      (((mapFrom (fun row i =>
          join "" (mapFrom (fun _cell j => (getCellBGColor env s i j).bind colorsToEmoji) 0 row))
          0 s.rows).filter fun row => row != "").map some)
  "Wordle \n" ++ textMap

/-- The function `getAllLettersWithColor`. Inside `flatMap`, `i` is an index
of `rows`, so `getCellBGColor(i, j)` does not throw and the test
`getCellBGColor(i, j) === color` is a comparison of two colours. -/
def getAllLettersWithColor (env : Env) (s : State) (color : Color) : List String :=
  flatMapFrom (fun row i =>
    filterFrom (fun _cell j => decide (getCellBGColor env s i j = some color)) 0 row) 0 s.rows

/-- The list `greenCaps`. -/
def greenCaps (env : Env) (s : State) : List String :=
  getAllLettersWithColor env s Color.primary

/-- The list `yellowCaps`. -/
def yellowCaps (env : Env) (s : State) : List String :=
  getAllLettersWithColor env s Color.secondary

/-- The list `greyCaps`. -/
def greyCaps (env : Env) (s : State) : List String :=
  getAllLettersWithColor env s Color.darkgrey

/-- The symbols of row `i` as the share text shows them: one per column of
the puzzle word, the symbol of the colour of the cell. -/
def rowSymbols (env : Env) (colorsToEmoji : Color → Option String) (s : State) (i : Nat) :
    List (Option String) :=
  (List.range env.letters.length).map fun j => (getCellBGColor env s i j).bind colorsToEmoji

/-- The share text as the specification describes it: the title line, then
one line per completed row, in order. -/
def shareText (env : Env) (colorsToEmoji : Color → Option String) (s : State) : String :=
  "Wordle \n" ++
    join "\n" ((List.range s.curRow).map fun i => some (join "" (rowSymbols env colorsToEmoji s i)))

/-- The call `word.split('')` on a word of plain letters: its characters,
each as a string of length one. -/
def split (word : String) : List String :=
  word.data.map fun c => String.singleton c

/-- The module-level constant `word`: `dictionary[index]`, where `index`
stands for `Math.floor(Math.random() * dictionary.length)`; `none` is
`undefined`. The dictionary of `src/dictionary` is not part of the sources
and is a parameter. -/
def word (dictionary : List String) (index : Nat) : Option String :=
  dictionary[index]?

/-- The module-level constant `letters`: `word.split('')`, which throws a
`TypeError` (`none`) when `word` is `undefined`. -/
def letters (dictionary : List String) (index : Nat) : Option (List String) :=
  match word dictionary index with
  | none => none
  | some w => some (split w)

/-- The cells at and after the cursor, in row-major order, are empty. -/
def CursorEmpty (env : Env) (s : State) : Prop :=
  ∀ r c : Nat, r < NUMBER_OF_TRIES → c < env.letters.length →
    (s.curRow < r ∨ (r = s.curRow ∧ s.curCol ≤ c)) → cellAt s r c = some ""

/-- A symbol table for the worked examples: one symbol for each of the
three colours of a completed cell, none for the default colour. -/
def exampleEmoji : Color → Option String
  | Color.black => none
  | Color.primary => some "🟩"
  | Color.secondary => some "🟧"
  | Color.darkgrey => some "⬛"

/-- The state of the `HELLO` game after `WORLD` and `LATHE` have been
submitted and `Q` has been typed in the third row. -/
def twoRowsState : State :=
  { rows := [["W", "O", "R", "L", "D"], ["L", "A", "T", "H", "E"], ["Q", "", "", "", ""],
      ["", "", "", "", ""], ["", "", "", "", ""], ["", "", "", "", ""]]
    curRow := 2
    curCol := 1
    gameState := GameState.playing }

/-! ## Basic facts about the embedding -/

theorem copyArray_eq (arr : List (List String)) : copyArray arr = arr := by
  simp [copyArray]

theorem everyFrom_iff (letters : List String) (row : List String) :
    ∀ i : Nat, everyFrom (fun letter j => decide (some letter = letters[j]?)) i row = true ↔
      ∀ j : Nat, ∀ h : j < row.length, letters[i + j]? = some row[j] := by
  induction row with
  | nil => intro i; simp [everyFrom]
  | cons x xs ih =>
    intro i
    simp only [everyFrom, Bool.and_eq_true, decide_eq_true_eq, ih]
    constructor
    · rintro ⟨h0, hrest⟩ j hj
      cases j with
      | zero => simpa using h0.symm
      | succ k =>
        have := hrest k (by simpa using hj)
        simpa [Nat.add_assoc, Nat.add_comm 1 k] using this
    · intro h
      refine ⟨?_, ?_⟩
      · have := h 0 (by simp)
        simpa using this.symm
      · intro j hj
        have := h (j + 1) (by simpa using hj)
        simpa [Nat.add_assoc, Nat.add_comm 1 j] using this

theorem every_eq_true_iff (letters row : List String) (hlen : row.length = letters.length) :
    every (fun letter j => decide (some letter = letters[j]?)) row = true ↔ row = letters := by
  unfold every
  rw [everyFrom_iff]
  constructor
  · intro h
    apply List.ext_getElem hlen
    intro j h1 h2
    have := h j h1
    rw [Nat.zero_add, List.getElem?_eq_getElem h2] at this
    exact (Option.some.inj this).symm
  · intro h j hj
    subst h
    simp [List.getElem?_eq_getElem hj]

/-! ## The key handler, case by case -/

theorem onKeyPressed_of_not_playing (env : Env) (s : State) (key : String)
    (h : s.gameState ≠ GameState.playing) : onKeyPressed env s key = some s := by
  simp [onKeyPressed, h]

theorem onKeyPressed_CLEAR_zero (env : Env) (s : State) (hcol : s.curCol = 0) :
    onKeyPressed env s env.CLEAR = some s := by
  by_cases hp : s.gameState = GameState.playing
  · simp [onKeyPressed, hp, hcol]
  · exact onKeyPressed_of_not_playing env s _ hp

theorem onKeyPressed_CLEAR_pos (env : Env) (s : State) (row : List String)
    (hp : s.gameState = GameState.playing) (hrow : s.rows[s.curRow]? = some row)
    (hpos : 0 < s.curCol) (hcol : s.curCol ≤ row.length) :
    onKeyPressed env s env.CLEAR =
      some { s with rows := s.rows.set s.curRow (row.set (s.curCol - 1) ""),
                    curCol := s.curCol - 1 } := by
  have h1 : (0 : Int) ≤ (s.curCol : Int) - 1 := by omega
  have h2 : ((s.curCol : Int) - 1).toNat = s.curCol - 1 := by omega
  have h3 : s.curCol - 1 < row.length := by omega
  simp [onKeyPressed, hp, copyArray_eq, assignCell, hrow, h1, h2, h3]

theorem onKeyPressed_ENTER (env : Env) (s : State) (key : String) (row0 : List String)
    (hC : key ≠ env.CLEAR) (hE : key = env.ENTER)
    (hp : s.gameState = GameState.playing) (h0 : s.rows[0]? = some row0) :
    onKeyPressed env s key =
      some (if s.curCol = row0.length then { s with curRow := s.curRow + 1, curCol := 0 }
        else s) := by
  subst hE
  by_cases hc : s.curCol = row0.length <;> simp [onKeyPressed, hp, hC, h0, hc]

theorem onKeyPressed_other (env : Env) (s : State) (key : String) (row0 row : List String)
    (hC : key ≠ env.CLEAR) (hE : key ≠ env.ENTER)
    (hp : s.gameState = GameState.playing) (h0 : s.rows[0]? = some row0)
    (hrow : s.rows[s.curRow]? = some row)
    (hcol0 : s.curCol < row0.length) (hcol : s.curCol < row.length) :
    onKeyPressed env s key =
      some { s with rows := s.rows.set s.curRow (row.set s.curCol key),
                    curCol := s.curCol + 1 } := by
  simp [onKeyPressed, hp, hC, hE, h0, copyArray_eq, assignCell, hrow, hcol0, hcol]

theorem onKeyPressed_other_full (env : Env) (s : State) (key : String) (row0 : List String)
    (hC : key ≠ env.CLEAR) (hE : key ≠ env.ENTER)
    (h0 : s.rows[0]? = some row0) (hcol0 : ¬ s.curCol < row0.length) :
    onKeyPressed env s key = some s := by
  by_cases hp : s.gameState = GameState.playing
  · simp [onKeyPressed, hp, hC, hE, h0, hcol0]
  · exact onKeyPressed_of_not_playing env s _ hp

/-! ## The grid -/

theorem GridShape.row_zero {env : Env} {s : State} (h : GridShape env s) :
    ∃ row0, s.rows[0]? = some row0 ∧ row0.length = env.letters.length := by
  obtain ⟨hlen, hrows⟩ := h
  have h0 : 0 < s.rows.length := by rw [hlen]; decide
  exact ⟨s.rows[0], List.getElem?_eq_getElem h0, hrows _ (List.getElem_mem h0)⟩

theorem GridShape.row_at {env : Env} {s : State} (h : GridShape env s) {r : Nat}
    (hr : r < NUMBER_OF_TRIES) :
    ∃ row, s.rows[r]? = some row ∧ row.length = env.letters.length := by
  obtain ⟨hlen, hrows⟩ := h
  have h0 : r < s.rows.length := by rw [hlen]; exact hr
  exact ⟨s.rows[r], List.getElem?_eq_getElem h0, hrows _ (List.getElem_mem h0)⟩

theorem GridShape.length_of_getElem? {env : Env} {s : State} (h : GridShape env s) {r : Nat}
    {row : List String} (hr : s.rows[r]? = some row) : row.length = env.letters.length :=
  h.2 row (List.mem_iff_getElem?.mpr ⟨r, hr⟩)

theorem GridShape.set {env : Env} {s : State} (h : GridShape env s) (r : Nat)
    (row : List String) (hrow : row.length = env.letters.length) (cr cc : Nat)
    (g : GameState) :
    GridShape env { rows := s.rows.set r row, curRow := cr, curCol := cc, gameState := g } := by
  obtain ⟨hlen, hrows⟩ := h
  refine ⟨by simpa using hlen, ?_⟩
  intro x hx
  rcases List.mem_or_eq_of_mem_set hx with h1 | h1
  · exact hrows x h1
  · rw [h1]; exact hrow

theorem cellAt_set (s : State) (r c : Nat) (row : List String) (v : String)
    (cr cc : Nat) (g : GameState)
    (hrow : s.rows[r]? = some row) (r1 c1 : Nat) :
    cellAt { rows := s.rows.set r (row.set c v), curRow := cr, curCol := cc, gameState := g }
        r1 c1 =
      if r1 = r ∧ c1 = c ∧ c < row.length then some v else cellAt s r1 c1 := by
  have hr : r < s.rows.length := by
    rcases Nat.lt_or_ge r s.rows.length with h | h
    · exact h
    · rw [List.getElem?_eq_none h] at hrow; cases hrow
  unfold cellAt
  by_cases h1 : r1 = r
  · subst h1
    simp only [List.getElem?_set_self hr, hrow, true_and]
    by_cases h2 : c1 = c
    · subst h2
      by_cases h3 : c1 < row.length
      · simp [h3]
      · simp [h3, List.getElem?_eq_none (Nat.le_of_not_lt h3)]
        omega
    · simp [h2, List.getElem?_set_ne (Ne.symm h2)]
  · simp [h1, List.getElem?_set_ne (Ne.symm h1)]

/-! ## The status recomputation after a row advance -/

theorem checkIfWon_advance (env : Env) (s : State) (row : List String)
    (hrow : s.rows[s.curRow]? = some row) (hlen : row.length = env.letters.length) (g : GameState) :
    checkIfWon env { rows := s.rows, curRow := s.curRow + 1, curCol := 0, gameState := g } =
      some (decide (row = env.letters)) := by
  have hev := every_eq_true_iff env.letters row hlen
  have h1 : every (fun letter j => decide (some letter = env.letters[j]?)) row =
      decide (row = env.letters) := by
    by_cases hw : row = env.letters
    · rw [hev.mpr hw]; simp [hw]
    · cases h : every (fun letter j => decide (some letter = env.letters[j]?)) row
      · simp [hw]
      · exact absurd (hev.mp h) hw
  simp only [checkIfWon, Nat.add_sub_cancel, hrow, h1]
  simp

theorem checkGameState_advance (env : Env) (s : State) (row : List String)
    (hp : s.gameState = GameState.playing) (hrow : s.rows[s.curRow]? = some row)
    (hlen : row.length = env.letters.length) :
    curRowEffect env { s with curRow := s.curRow + 1, curCol := 0 } =
      some { s with curRow := s.curRow + 1, curCol := 0,
                    gameState := statusAfter env s row } := by
  have hwon := checkIfWon_advance env s row hrow hlen GameState.playing
  simp only [curRowEffect, checkGameState, checkIfLost, hp, hwon, statusAfter]
  by_cases hw : row = env.letters
  · simp [hw]
  · by_cases hl : s.curRow + 1 = s.rows.length
    · simp only [hw, hl]
      simp
      intro h
      rw [h] at hl
      simp at hl
    · simp [hw, hl]

/-! ## One key press -/

theorem press_of_same_row (env : Env) (s s1 : State) (key : String)
    (h : onKeyPressed env s key = some s1) (hrow : s1.curRow = s.curRow) :
    press env s key = some s1 := by
  simp [press, h, hrow]

theorem press_of_not_playing (env : Env) (s : State) (key : String)
    (h : s.gameState ≠ GameState.playing) : press env s key = some s :=
  press_of_same_row env s s key (onKeyPressed_of_not_playing env s key h) rfl

theorem press_CLEAR_pos (env : Env) (s : State) (row : List String)
    (hp : s.gameState = GameState.playing) (hrow : s.rows[s.curRow]? = some row)
    (hpos : 0 < s.curCol) (hcol : s.curCol ≤ row.length) :
    press env s env.CLEAR =
      some { s with rows := s.rows.set s.curRow (row.set (s.curCol - 1) ""),
                    curCol := s.curCol - 1 } :=
  press_of_same_row env s _ _ (onKeyPressed_CLEAR_pos env s row hp hrow hpos hcol) rfl

theorem press_other (env : Env) (s : State) (key : String) (row0 row : List String)
    (hC : key ≠ env.CLEAR) (hE : key ≠ env.ENTER)
    (hp : s.gameState = GameState.playing) (h0 : s.rows[0]? = some row0)
    (hrow : s.rows[s.curRow]? = some row)
    (hcol0 : s.curCol < row0.length) (hcol : s.curCol < row.length) :
    press env s key =
      some { s with rows := s.rows.set s.curRow (row.set s.curCol key),
                    curCol := s.curCol + 1 } :=
  press_of_same_row env s _ _
    (onKeyPressed_other env s key row0 row hC hE hp h0 hrow hcol0 hcol) rfl

theorem press_ENTER_full (env : Env) (s : State) (key : String) (row0 row : List String)
    (hC : key ≠ env.CLEAR) (hE : key = env.ENTER)
    (hp : s.gameState = GameState.playing) (h0 : s.rows[0]? = some row0)
    (hrow : s.rows[s.curRow]? = some row) (hlen : row.length = env.letters.length)
    (hcol : s.curCol = row0.length) :
    press env s key =
      some { s with curRow := s.curRow + 1, curCol := 0,
                    gameState := statusAfter env s row } := by
  have h1 := onKeyPressed_ENTER env s key row0 hC hE hp h0
  rw [if_pos hcol] at h1
  have h2 := checkGameState_advance env s row hp hrow hlen
  simp only [press, h1]
  simpa using h2

theorem press_ENTER_short (env : Env) (s : State) (key : String) (row0 : List String)
    (hC : key ≠ env.CLEAR) (hE : key = env.ENTER)
    (h0 : s.rows[0]? = some row0) (hcol : s.curCol ≠ row0.length) :
    press env s key = some s := by
  by_cases hp : s.gameState = GameState.playing
  · have h1 := onKeyPressed_ENTER env s key row0 hC hE hp h0
    rw [if_neg hcol] at h1
    exact press_of_same_row env s s key h1 rfl
  · exact press_of_not_playing env s key hp

/-- The four outcomes of a key press on a state that satisfies the
invariant: nothing changes, the last letter of the active row is erased, a
key value is written at the cursor, or the full active row is submitted. -/
theorem press_cases (env : Env) (s : State) (key : String) (hinv : Inv env s) :
    press env s key = some s ∨
    (∃ row, s.gameState = GameState.playing ∧ s.rows[s.curRow]? = some row ∧
      row.length = env.letters.length ∧ 0 < s.curCol ∧ key = env.CLEAR ∧
      press env s key =
        some { s with rows := s.rows.set s.curRow (row.set (s.curCol - 1) ""),
                      curCol := s.curCol - 1 }) ∨
    (∃ row, s.gameState = GameState.playing ∧ s.rows[s.curRow]? = some row ∧
      row.length = env.letters.length ∧ s.curCol < env.letters.length ∧
      key ≠ env.CLEAR ∧ key ≠ env.ENTER ∧
      press env s key =
        some { s with rows := s.rows.set s.curRow (row.set s.curCol key),
                      curCol := s.curCol + 1 }) ∨
    (∃ row, s.gameState = GameState.playing ∧ s.rows[s.curRow]? = some row ∧
      row.length = env.letters.length ∧ s.curCol = env.letters.length ∧
      key ≠ env.CLEAR ∧ key = env.ENTER ∧
      press env s key =
        some { s with curRow := s.curRow + 1, curCol := 0,
                      gameState := statusAfter env s row }) := by
  obtain ⟨hgrid, hcol, _, hplay, _, _⟩ := hinv
  by_cases hp : s.gameState = GameState.playing
  · obtain ⟨row0, h0, hlen0⟩ := hgrid.row_zero
    obtain ⟨row, hrow, hlen⟩ := hgrid.row_at (hplay hp)
    by_cases hC : key = env.CLEAR
    · subst hC
      by_cases hz : s.curCol = 0
      · exact Or.inl (press_of_same_row env s s _ (onKeyPressed_CLEAR_zero env s hz) rfl)
      · exact Or.inr (Or.inl ⟨row, hp, hrow, hlen, Nat.pos_of_ne_zero hz, rfl,
          press_CLEAR_pos env s row hp hrow (Nat.pos_of_ne_zero hz) (by omega)⟩)
    · by_cases hE : key = env.ENTER
      · by_cases hfull : s.curCol = env.letters.length
        · exact Or.inr (Or.inr (Or.inr ⟨row, hp, hrow, hlen, hfull, hC, hE,
            press_ENTER_full env s key row0 row hC hE hp h0 hrow hlen (by omega)⟩))
        · exact Or.inl (press_ENTER_short env s key row0 hC hE h0 (by omega))
      · by_cases hfull : s.curCol < env.letters.length
        · exact Or.inr (Or.inr (Or.inl ⟨row, hp, hrow, hlen, hfull, hC, hE,
            press_other env s key row0 row hC hE hp h0 hrow (by omega) (by omega)⟩))
        · exact Or.inl (press_of_same_row env s s key
            (onKeyPressed_other_full env s key row0 hC hE h0 (by omega)) rfl)
  · exact Or.inl (press_of_not_playing env s key hp)

/-! ## The invariant -/

theorem gridShape_initialState (env : Env) : GridShape env (initialState env) := by
  refine ⟨by simp [initialState], ?_⟩
  intro r hr
  simp only [initialState] at hr
  rw [List.eq_of_mem_replicate hr]
  simp

theorem inv_initialState (env : Env) : Inv env (initialState env) := by
  refine ⟨gridShape_initialState env, ?_, ?_, ?_, ?_, ?_⟩ <;>
    simp [initialState, NUMBER_OF_TRIES]

theorem statusAfter_cases (env : Env) (s : State) (row : List String) :
    (statusAfter env s row = GameState.won ∧ row = env.letters) ∨
    (statusAfter env s row = GameState.lost ∧ row ≠ env.letters ∧
      s.curRow + 1 = s.rows.length) ∨
    (statusAfter env s row = GameState.playing ∧ row ≠ env.letters ∧
      s.curRow + 1 ≠ s.rows.length) := by
  unfold statusAfter
  by_cases hw : row = env.letters
  · simp [hw]
  · by_cases hl : s.curRow + 1 = s.rows.length <;> simp [hw, hl]

theorem inv_press (env : Env) (s s1 : State) (key : String) (hinv : Inv env s)
    (hstep : press env s key = some s1) : Inv env s1 := by
  have hinv0 := hinv
  obtain ⟨hgrid, hcol, hrowle, hplay, hwon, hlost⟩ := hinv
  rcases press_cases env s key hinv0 with h | ⟨row, hp, hrow, hlen, hpos, _, h⟩ |
      ⟨row, hp, hrow, hlen, hlt, _, _, h⟩ | ⟨row, hp, hrow, hlen, hfull, _, _, h⟩
  · rw [h] at hstep
    cases hstep
    exact hinv0
  · rw [h] at hstep
    cases hstep
    refine ⟨hgrid.set _ _ (by simpa using hlen) _ _ _, ?_, hrowle, ?_, ?_, ?_⟩
    · show s.curCol - 1 ≤ env.letters.length
      omega
    · intro _; exact hplay hp
    · intro hc; rw [hp] at hc; cases hc
    · intro hc; rw [hp] at hc; cases hc
  · rw [h] at hstep
    cases hstep
    refine ⟨hgrid.set _ _ (by simpa using hlen) _ _ _, ?_, hrowle, ?_, ?_, ?_⟩
    · show s.curCol + 1 ≤ env.letters.length
      omega
    · intro _; exact hplay hp
    · intro hc; rw [hp] at hc; cases hc
    · intro hc; rw [hp] at hc; cases hc
  · rw [h] at hstep
    cases hstep
    have hlt := hplay hp
    have hR : s.rows.length = NUMBER_OF_TRIES := hgrid.1
    refine ⟨⟨hgrid.1, hgrid.2⟩, Nat.zero_le _, ?_, ?_, ?_, ?_⟩
    · show s.curRow + 1 ≤ NUMBER_OF_TRIES
      omega
    · intro hc
      show s.curRow + 1 < NUMBER_OF_TRIES
      rcases statusAfter_cases env s row with ⟨h1, _⟩ | ⟨h1, _⟩ | ⟨_, _, h2⟩
      · rw [h1] at hc; cases hc
      · rw [h1] at hc; cases hc
      · omega
    · intro hc
      show 0 < s.curRow + 1 ∧ s.rows[s.curRow + 1 - 1]? = some env.letters
      rcases statusAfter_cases env s row with ⟨_, h2⟩ | ⟨h1, _⟩ | ⟨h1, _⟩
      · rw [Nat.add_sub_cancel, hrow, h2]
        exact ⟨Nat.succ_pos _, rfl⟩
      · rw [h1] at hc; cases hc
      · rw [h1] at hc; cases hc
    · intro hc
      show s.curRow + 1 = NUMBER_OF_TRIES ∧ s.rows[NUMBER_OF_TRIES - 1]? ≠ some env.letters
      rcases statusAfter_cases env s row with ⟨h1, _⟩ | ⟨_, h2, h3⟩ | ⟨h1, _⟩
      · rw [h1] at hc; cases hc
      · refine ⟨by omega, ?_⟩
        have h4 : NUMBER_OF_TRIES - 1 = s.curRow := by omega
        rw [h4, hrow]
        intro h5
        exact h2 (Option.some.inj h5)
      · rw [h1] at hc; cases hc

theorem inv_of_reachable (env : Env) (s : State) (h : Reachable env s) : Inv env s := by
  induction h with
  | init => exact inv_initialState env
  | step key _ hstep ih => exact inv_press env _ _ key ih hstep

/-! ## Typing a row -/

theorem writeKeys_length (keys : List String) :
    ∀ (row : List String) (c : Nat), (writeKeys row c keys).length = row.length := by
  induction keys with
  | nil => intro row c; rfl
  | cons k ks ih => intro row c; simp [writeKeys, ih]

theorem writeKeys_getElem? (keys : List String) :
    ∀ (row : List String) (c : Nat), c + keys.length ≤ row.length → ∀ j : Nat,
      (writeKeys row c keys)[j]? =
        if j < c then row[j]? else if j < c + keys.length then keys[j - c]? else row[j]? := by
  induction keys with
  | nil =>
    intro row c _ j
    by_cases h : j < c <;> simp [writeKeys, h]
  | cons k ks ih =>
    intro row c hle j
    simp only [List.length_cons] at hle
    simp only [writeKeys, List.length_cons]
    rw [ih (row.set c k) (c + 1) (by simp; omega) j]
    by_cases h1 : j < c
    · have h2 : j < c + 1 := by omega
      simp [h1, h2, List.getElem?_set_ne (Nat.ne_of_gt h1)]
    · by_cases h2 : j = c
      · subst h2
        have h3 : j < row.length := by omega
        simp [List.getElem?_set_self h3]
      · have h3 : ¬ j < c + 1 := by omega
        have h4 : j - c = (j - (c + 1)) + 1 := by omega
        simp only [h1, h3, if_false]
        by_cases h5 : j < c + 1 + ks.length
        · have h6 : j < c + (ks.length + 1) := by omega
          simp [h5, h6, h4]
        · have h6 : ¬ j < c + (ks.length + 1) := by omega
          simp [h5, h6, List.getElem?_set_ne (Ne.symm h2)]

theorem writeKeys_zero_full (row keys : List String) (h : keys.length = row.length) :
    writeKeys row 0 keys = keys := by
  apply List.ext_getElem?
  intro j
  rw [writeKeys_getElem? keys row 0 (by omega) j]
  by_cases h1 : j < keys.length
  · simp [h1]
  · simp [h1, List.getElem?_eq_none (show row.length ≤ j by omega),
      List.getElem?_eq_none (show keys.length ≤ j by omega)]

theorem pressAll_append (env : Env) (keys1 keys2 : List String) :
    ∀ s : State, pressAll env s (keys1 ++ keys2) =
      (pressAll env s keys1).bind fun s1 => pressAll env s1 keys2 := by
  induction keys1 with
  | nil => intro s; simp [pressAll]
  | cons k ks ih =>
    intro s
    simp only [List.cons_append, pressAll]
    cases press env s k with
    | none => rfl
    | some s1 => exact ih s1

theorem inv_pressAll (env : Env) (keys : List String) :
    ∀ s s1 : State, Inv env s → pressAll env s keys = some s1 → Inv env s1 := by
  induction keys with
  | nil =>
    intro s s1 hinv h
    simp only [pressAll] at h
    cases h
    exact hinv
  | cons k ks ih =>
    intro s s1 hinv h
    simp only [pressAll] at h
    cases hp : press env s k with
    | none => rw [hp] at h; cases h
    | some s2 =>
      rw [hp] at h
      exact ih s2 s1 (inv_press env s s2 k hinv hp) h

/-- Typing keys that are neither `CLEAR` nor `ENTER` into the active row,
while they fit, writes them from the cursor on. -/
theorem pressAll_write (env : Env) (keys : List String) :
    ∀ (s : State) (row : List String), GridShape env s →
      s.gameState = GameState.playing → s.rows[s.curRow]? = some row →
      s.curCol + keys.length ≤ env.letters.length →
      (∀ k ∈ keys, k ≠ env.CLEAR ∧ k ≠ env.ENTER) →
      pressAll env s keys =
        some { s with rows := s.rows.set s.curRow (writeKeys row s.curCol keys),
                      curCol := s.curCol + keys.length } := by
  induction keys with
  | nil =>
    intro s row _ _ hrow _ _
    have hset : s.rows.set s.curRow row = s.rows := by
      apply List.ext_getElem?
      intro j
      by_cases hj : j = s.curRow
      · rw [hj]
        rcases Nat.lt_or_ge s.curRow s.rows.length with h | h
        · rw [List.getElem?_set_self h, hrow]
        · rw [List.getElem?_eq_none h] at hrow; cases hrow
      · rw [List.getElem?_set_ne (Ne.symm hj)]
    simp [pressAll, writeKeys, hset]
  | cons k ks ih =>
    intro s row hgrid hp hrow hle hkeys
    simp only [List.length_cons] at hle
    obtain ⟨row0, h0, hlen0⟩ := hgrid.row_zero
    have hlen := hgrid.length_of_getElem? hrow
    have hk := hkeys k (List.mem_cons_self _ _)
    have hstep := press_other env s k row0 row hk.1 hk.2 hp h0 hrow (by omega) (by omega)
    have hr : s.curRow < s.rows.length := by
      rcases Nat.lt_or_ge s.curRow s.rows.length with h | h
      · exact h
      · rw [List.getElem?_eq_none h] at hrow; cases hrow
    simp only [pressAll, hstep]
    rw [ih _ (row.set s.curCol k) (hgrid.set _ _ (by simpa using hlen) _ _ _) hp
      (by simp [List.getElem?_set_self hr]) (by simp; omega)
      (fun k1 hk1 => hkeys k1 (List.mem_cons_of_mem _ hk1))]
    simp [writeKeys, List.set_set, Nat.add_assoc, Nat.add_comm 1 ks.length]

/-- Typing a full row of keys that are neither `CLEAR` nor `ENTER` from
column 0 and pressing `ENTER` stores the row, advances to the next row and
recomputes the status. -/
theorem pressAll_submit (env : Env) (s : State) (guess : List String)
    (hne : env.CLEAR ≠ env.ENTER) (hgrid : GridShape env s)
    (hp : s.gameState = GameState.playing) (hrow : s.curRow < NUMBER_OF_TRIES)
    (hcol : s.curCol = 0) (hlen : guess.length = env.letters.length)
    (hkeys : ∀ k ∈ guess, k ≠ env.CLEAR ∧ k ≠ env.ENTER) :
    pressAll env s (guess ++ [env.ENTER]) =
      some { rows := s.rows.set s.curRow guess, curRow := s.curRow + 1, curCol := 0,
             gameState := statusAfter env s guess } := by
  obtain ⟨row, hr, hrlen⟩ := hgrid.row_at hrow
  have hr1 : s.curRow < s.rows.length := by rw [hgrid.1]; exact hrow
  rw [pressAll_append, pressAll_write env guess s row hgrid hp hr (by omega) hkeys]
  rw [hcol, writeKeys_zero_full row guess (by omega), hp, Nat.zero_add]
  have hgrid1 : GridShape env ⟨s.rows.set s.curRow guess, s.curRow, guess.length,
      GameState.playing⟩ := hgrid.set _ _ hlen _ _ _
  obtain ⟨row0, h0, hlen0⟩ := hgrid1.row_zero
  have hstep := press_ENTER_full env ⟨s.rows.set s.curRow guess, s.curRow, guess.length,
      GameState.playing⟩ env.ENTER row0 guess (fun h => hne h.symm) rfl rfl h0
      (by simp [List.getElem?_set_self hr1]) hlen (by simp; omega)
  simp only [Option.some_bind, pressAll, hstep]
  simp [statusAfter]

/-! ## Cell colours -/

/-- C1: for every state and every cell `(row, col)` of the grid at a column
of the puzzle word, `getCellBGColor row col` is the default colour when
`row ≥ curRow`; otherwise it is `primary` (correct) when the cell's letter is
the puzzle word's letter at `col`, else `secondary` (present elsewhere) when
the letter occurs in the puzzle word, else `darkgrey` (absent). In a
completed row the colour is `primary` exactly when the letter is the puzzle
word's letter at that column. -/
theorem getCellBGColor_spec (env : Env) (s : State) (row col : Nat) (letter target : String)
    (hcell : cellAt s row col = some letter) (htarget : env.letters[col]? = some target) :
    getCellBGColor env s row col =
        some (if row ≥ s.curRow then Color.black
          else if letter = target then Color.primary
          else if letter ∈ env.letters then Color.secondary
          else Color.darkgrey) ∧
      (row < s.curRow →
        (getCellBGColor env s row col = some Color.primary ↔ letter = target)) := by
  have hval : getCellBGColor env s row col =
      some (if row ≥ s.curRow then Color.black
        else if letter = target then Color.primary
        else if letter ∈ env.letters then Color.secondary
        else Color.darkgrey) := by
    unfold cellAt at hcell
    unfold getCellBGColor
    cases hr : s.rows[row]? with
    | none => rw [hr] at hcell; cases hcell
    | some r =>
      rw [hr] at hcell
      simp only at hcell
      simp only [hcell, htarget, includes]
      by_cases h1 : row ≥ s.curRow
      · simp [h1]
      · by_cases h2 : letter = target
        · simp [h1, h2]
        · by_cases h3 : letter ∈ env.letters <;> simp [h1, h2, h3]
  refine ⟨hval, ?_⟩
  intro hlt
  rw [hval]
  have h1 : ¬ row ≥ s.curRow := by omega
  by_cases h2 : letter = target
  · simp [h1, h2]
  · by_cases h3 : letter ∈ env.letters <;> simp [h1, h2, h3]

/-- Witness for C1: row 0 of the `HELLO` game after `WORLD` is submitted,
column 1, where the cell holds `O` and the puzzle word has `E`. -/
theorem getCellBGColor_spec_witness :
    getCellBGColor helloEnv
        ⟨[["W", "O", "R", "L", "D"], ["", "", "", "", ""], ["", "", "", "", ""],
          ["", "", "", "", ""], ["", "", "", "", ""], ["", "", "", "", ""]], 1, 0,
          GameState.playing⟩ 0 1 = some Color.secondary := by
  have h := (getCellBGColor_spec helloEnv
    ⟨[["W", "O", "R", "L", "D"], ["", "", "", "", ""], ["", "", "", "", ""],
      ["", "", "", "", ""], ["", "", "", "", ""], ["", "", "", "", ""]], 1, 0,
      GameState.playing⟩ 0 1 "O" "E" (by decide) (by decide)).1
  rw [h]
  decide

/-- C2, refuted as stated: with puzzle word `HELLO`, after `WORLD` is typed
and submitted from the initial state, the cell of row 0 at column 3 (the
letter `L`, which is also the letter of `HELLO` at column 3) is coloured
`primary` (correct), not `secondary` (present elsewhere). -/
theorem hello_world_colours_counterexample :
    ∃ s, pressAll helloEnv (initialState helloEnv) ["W", "O", "R", "L", "D", "ENTER"] = some s ∧
      cellAt s 0 3 = some "L" ∧ helloEnv.letters[3]? = some "L" ∧
      getCellBGColor helloEnv s 0 3 = some Color.primary ∧
      (List.range 5).map (getCellBGColor helloEnv s 0) ≠
        [some Color.darkgrey, some Color.secondary, some Color.darkgrey,
          some Color.secondary, some Color.darkgrey] := by
  refine ⟨⟨[["W", "O", "R", "L", "D"], ["", "", "", "", ""], ["", "", "", "", ""],
      ["", "", "", "", ""], ["", "", "", "", ""], ["", "", "", "", ""]], 1, 0,
      GameState.playing⟩, ?_, ?_, ?_, ?_, ?_⟩ <;> decide

/-- C2, amended: with puzzle word `HELLO` and any key constants `CLEAR` and
`ENTER` that differ from each other and from the letters typed, after `WORLD`
is typed and submitted from the initial state the five colours of row 0 are
`darkgrey` (W absent), `secondary` (O present elsewhere), `darkgrey`
(R absent), `primary` (L correct) and `darkgrey` (D absent). -/
theorem hello_world_colours (CLEAR ENTER : String) (hne : CLEAR ≠ ENTER)
    (hkeys : ∀ k ∈ ["W", "O", "R", "L", "D"], k ≠ CLEAR ∧ k ≠ ENTER) :
    ∃ s, pressAll ⟨["H", "E", "L", "L", "O"], CLEAR, ENTER⟩
          (initialState ⟨["H", "E", "L", "L", "O"], CLEAR, ENTER⟩)
          (["W", "O", "R", "L", "D"] ++ [ENTER]) = some s ∧
      (List.range 5).map (getCellBGColor ⟨["H", "E", "L", "L", "O"], CLEAR, ENTER⟩ s 0) =
        [some Color.darkgrey, some Color.secondary, some Color.darkgrey,
          some Color.primary, some Color.darkgrey] := by
  have h := pressAll_submit ⟨["H", "E", "L", "L", "O"], CLEAR, ENTER⟩
    (initialState ⟨["H", "E", "L", "L", "O"], CLEAR, ENTER⟩) ["W", "O", "R", "L", "D"]
    hne (gridShape_initialState _) rfl (by simp [initialState, NUMBER_OF_TRIES]) rfl rfl hkeys
  refine ⟨_, h, ?_⟩
  simp [initialState, NUMBER_OF_TRIES, List.replicate, getCellBGColor, includes, List.range,
    List.range.loop]

/-- Witness for the amended C2: the key constants `"CLEAR"` and `"ENTER"`. -/
theorem hello_world_colours_witness :
    ∃ s, pressAll helloEnv (initialState helloEnv) ["W", "O", "R", "L", "D", "ENTER"] = some s ∧
      (List.range 5).map (getCellBGColor helloEnv s 0) =
        [some Color.darkgrey, some Color.secondary, some Color.darkgrey,
          some Color.primary, some Color.darkgrey] :=
  hello_world_colours "CLEAR" "ENTER" (by decide) (by decide)

/-! ## Win and loss -/

/-- C3: from every reachable state with status `playing` and `curCol = 0`,
typing the letters of the puzzle word in order and then `ENTER` (each key
press followed by the status recomputation of the `curRow` effect) completes
and yields status `won`. The key constants `CLEAR` and `ENTER` differ from
each other and from the letters of the word. -/
theorem win_detection (env : Env) (s : State) (hne : env.CLEAR ≠ env.ENTER)
    (hkeys : ∀ k ∈ env.letters, k ≠ env.CLEAR ∧ k ≠ env.ENTER)
    (hreach : Reachable env s) (hp : s.gameState = GameState.playing)
    (hcol : s.curCol = 0) :
    ∃ s1, pressAll env s (env.letters ++ [env.ENTER]) = some s1 ∧
      s1.gameState = GameState.won := by
  have hinv := inv_of_reachable env s hreach
  have h := pressAll_submit env s env.letters hne hinv.1 hp (hinv.2.2.2.1 hp) hcol rfl hkeys
  exact ⟨_, h, by simp [statusAfter]⟩

/-- Witness for C3: the initial state of the `HELLO` game. -/
theorem win_detection_witness :
    ∃ s1, pressAll helloEnv (initialState helloEnv) ["H", "E", "L", "L", "O", "ENTER"] =
        some s1 ∧ s1.gameState = GameState.won :=
  win_detection helloEnv (initialState helloEnv) (by decide) (by decide) Reachable.init rfl rfl

/-- Submitting wrong guesses from a playing state at column 0, as long as
rows remain: the status is `lost` exactly when the last row has been used. -/
theorem submitAll_wrong (env : Env) (hne : env.CLEAR ≠ env.ENTER) (guesses : List (List String)) :
    ∀ s : State, Inv env s → s.gameState = GameState.playing → s.curCol = 0 →
      s.curRow + guesses.length ≤ NUMBER_OF_TRIES →
      (∀ g ∈ guesses, g.length = env.letters.length ∧ g ≠ env.letters ∧
        ∀ k ∈ g, k ≠ env.CLEAR ∧ k ≠ env.ENTER) →
      ∃ s1, submitAll env s guesses = some s1 ∧ s1.curRow = s.curRow + guesses.length ∧
        s1.gameState = (if s.curRow + guesses.length = NUMBER_OF_TRIES then GameState.lost
          else GameState.playing) := by
  induction guesses with
  | nil =>
    intro s hinv hp _ _ _
    have hlt := hinv.2.2.2.1 hp
    refine ⟨s, rfl, rfl, ?_⟩
    simp [hp, Nat.ne_of_lt hlt]
  | cons g gs ih =>
    intro s hinv hp hcol hle hwrong
    simp only [List.length_cons] at hle
    obtain ⟨hglen, hgne, hgkeys⟩ := hwrong g (List.mem_cons_self _ _)
    have hstep := pressAll_submit env s g hne hinv.1 hp (hinv.2.2.2.1 hp) hcol hglen hgkeys
    have hinv1 := inv_pressAll env _ s _ hinv hstep
    simp only [submitAll, hstep, List.length_cons]
    have hR : s.rows.length = NUMBER_OF_TRIES := hinv.1.1
    by_cases hlast : s.curRow + 1 = NUMBER_OF_TRIES
    · have hgs : gs = [] := List.eq_nil_of_length_eq_zero (by omega)
      subst hgs
      refine ⟨_, rfl, by simp, ?_⟩
      simp [statusAfter, hgne, hR, hlast]
    · have hst : statusAfter env s g = GameState.playing := by
        simp [statusAfter, hgne, hR, hlast]
      rw [hst] at hinv1 ⊢
      obtain ⟨s1, h1, h2, h3⟩ := ih _ hinv1 rfl rfl (by simp; omega)
        (fun g1 hg1 => hwrong g1 (List.mem_cons_of_mem _ hg1))
      refine ⟨s1, h1, ?_, ?_⟩
      · rw [h2]; simp; omega
      · rw [h3]
        simp only [Nat.add_assoc, Nat.add_comm 1 gs.length]

/-- C4: from the initial state, for every sequence of `NUMBER_OF_TRIES`
complete guesses none of which is the puzzle word (typed with keys that are
neither `CLEAR` nor `ENTER`), submitting the first `k` of them completes with
`curRow = k`, and the status is `playing` for every `k < NUMBER_OF_TRIES` and
`lost` for `k = NUMBER_OF_TRIES`. -/
theorem loss_detection (env : Env) (guesses : List (List String))
    (hne : env.CLEAR ≠ env.ENTER) (hlen : guesses.length = NUMBER_OF_TRIES)
    (hwrong : ∀ g ∈ guesses, g.length = env.letters.length ∧ g ≠ env.letters ∧
      ∀ k ∈ g, k ≠ env.CLEAR ∧ k ≠ env.ENTER) :
    ∀ k : Nat, k ≤ NUMBER_OF_TRIES →
      ∃ s1, submitAll env (initialState env) (guesses.take k) = some s1 ∧ s1.curRow = k ∧
        s1.gameState = (if k = NUMBER_OF_TRIES then GameState.lost else GameState.playing) := by
  intro k hk
  have hlk : (guesses.take k).length = k := by
    rw [List.length_take, hlen]; exact Nat.min_eq_left hk
  obtain ⟨s1, h1, h2, h3⟩ := submitAll_wrong env hne (guesses.take k) (initialState env)
    (inv_initialState env) rfl rfl (by rw [hlk]; simpa [initialState] using hk)
    (fun g hg => hwrong g (List.mem_of_mem_take hg))
  rw [hlk] at h2 h3
  refine ⟨s1, h1, by simpa [initialState] using h2, ?_⟩
  simpa [initialState] using h3

/-- Witness for C4: six times the guess `WORLD` in the `HELLO` game; the
status is `playing` after five rows and `lost` after the sixth. -/
theorem loss_detection_witness :
    (∃ s1, submitAll helloEnv (initialState helloEnv)
        ((List.replicate 6 ["W", "O", "R", "L", "D"]).take 5) = some s1 ∧ s1.curRow = 5 ∧
        s1.gameState = GameState.playing) ∧
    (∃ s1, submitAll helloEnv (initialState helloEnv)
        ((List.replicate 6 ["W", "O", "R", "L", "D"]).take 6) = some s1 ∧ s1.curRow = 6 ∧
        s1.gameState = GameState.lost) :=
  ⟨loss_detection helloEnv (List.replicate 6 ["W", "O", "R", "L", "D"]) (by decide) (by decide)
      (by decide) 5 (by decide),
    loss_detection helloEnv (List.replicate 6 ["W", "O", "R", "L", "D"]) (by decide) (by decide)
      (by decide) 6 (by decide)⟩

/-! ## The key handler -/

/-- C5: in every state whose status is `won` or `lost`, for every key value,
`onKeyPressed` returns the state unchanged (grid, `curRow`, `curCol` and
status), and so does every sequence of key presses: the status never returns
to `playing`. -/
theorem terminal_frozen (env : Env) (s : State)
    (hterm : s.gameState = GameState.won ∨ s.gameState = GameState.lost) :
    (∀ key : String, onKeyPressed env s key = some s) ∧
      (∀ keys : List String, pressAll env s keys = some s) := by
  have hnp : s.gameState ≠ GameState.playing := by
    rcases hterm with h | h <;> rw [h] <;> decide
  refine ⟨fun key => onKeyPressed_of_not_playing env s key hnp, ?_⟩
  intro keys
  induction keys with
  | nil => rfl
  | cons k ks ih => simp only [pressAll, press_of_not_playing env s k hnp, ih]

/-- Witness for C5: a won state of the `HELLO` game. -/
theorem terminal_frozen_witness :
    onKeyPressed helloEnv
        ⟨[["H", "E", "L", "L", "O"], ["", "", "", "", ""], ["", "", "", "", ""],
          ["", "", "", "", ""], ["", "", "", "", ""], ["", "", "", "", ""]], 1, 0,
          GameState.won⟩ "A" =
      some ⟨[["H", "E", "L", "L", "O"], ["", "", "", "", ""], ["", "", "", "", ""],
          ["", "", "", "", ""], ["", "", "", "", ""], ["", "", "", "", ""]], 1, 0,
          GameState.won⟩ :=
  (terminal_frozen helloEnv
    ⟨[["H", "E", "L", "L", "O"], ["", "", "", "", ""], ["", "", "", "", ""],
      ["", "", "", "", ""], ["", "", "", "", ""], ["", "", "", "", ""]], 1, 0,
      GameState.won⟩ (Or.inl rfl)).1 "A"

/-- C6, refuted as stated: in the initial state of the `HELLO` game the key
value `"1"`, which is neither a letter nor `CLEAR` nor `ENTER`, is written
into cell `(0, 0)` and moves the cursor to column 1. -/
theorem invalid_key_counterexample :
    isLetterKey "1" = false ∧ "1" ≠ helloEnv.CLEAR ∧ "1" ≠ helloEnv.ENTER ∧
      onKeyPressed helloEnv (initialState helloEnv) "1" =
        some ⟨[["1", "", "", "", ""], ["", "", "", "", ""], ["", "", "", "", ""],
          ["", "", "", "", ""], ["", "", "", "", ""], ["", "", "", "", ""]], 0, 1,
          GameState.playing⟩ ∧
      onKeyPressed helloEnv (initialState helloEnv) "1" ≠ some (initialState helloEnv) := by
  refine ⟨?_, ?_, ?_, ?_, ?_⟩ <;> decide

/-- C6, amended: key values are not validated. For every state with the
grid of the data model and every key value that is neither `CLEAR` nor
`ENTER` (a letter or not), `onKeyPressed` returns the state unchanged when
the status is not `playing` or `curCol = letters.length`; in a playing state
with an active row and `curCol < letters.length` it writes the key value
into cell `(curRow, curCol)` and increments `curCol`. -/
theorem other_key_not_validated (env : Env) (s : State) (key : String)
    (hC : key ≠ env.CLEAR) (hE : key ≠ env.ENTER) (hgrid : GridShape env s) :
    (s.gameState ≠ GameState.playing ∨ s.curCol = env.letters.length →
        onKeyPressed env s key = some s) ∧
      (s.gameState = GameState.playing → s.curCol < env.letters.length →
        s.curRow < NUMBER_OF_TRIES →
        ∃ row, s.rows[s.curRow]? = some row ∧
          onKeyPressed env s key =
            some ⟨s.rows.set s.curRow (row.set s.curCol key), s.curRow, s.curCol + 1,
              GameState.playing⟩) := by
  obtain ⟨row0, h0, hlen0⟩ := hgrid.row_zero
  constructor
  · rintro (h | h)
    · exact onKeyPressed_of_not_playing env s key h
    · exact onKeyPressed_other_full env s key row0 hC hE h0 (by omega)
  · intro hp hcol hrow
    obtain ⟨row, hr, hlen⟩ := hgrid.row_at hrow
    refine ⟨row, hr, ?_⟩
    rw [onKeyPressed_other env s key row0 row hC hE hp h0 hr (by omega) (by omega), hp]

/-- Witness for the amended C6: the key value `"1"` in the initial state of
the `HELLO` game. -/
theorem other_key_not_validated_witness :
    ∃ row, (initialState helloEnv).rows[0]? = some row ∧
      onKeyPressed helloEnv (initialState helloEnv) "1" =
        some ⟨(initialState helloEnv).rows.set 0 (row.set 0 "1"), 0, 1, GameState.playing⟩ :=
  (other_key_not_validated helloEnv (initialState helloEnv) "1" (by decide) (by decide)
    (by decide)).2 rfl (by decide) (by decide)

/-- C7: in every state with the grid of the data model and
`curCol < letters.length`, pressing `ENTER` (a key constant different from
`CLEAR`) returns the state unchanged, and so does every number of repeated
`ENTER` presses. -/
theorem premature_submit (env : Env) (s : State) (hne : env.CLEAR ≠ env.ENTER)
    (hgrid : GridShape env s) (hcol : s.curCol < env.letters.length) :
    onKeyPressed env s env.ENTER = some s ∧
      ∀ n : Nat, pressAll env s (List.replicate n env.ENTER) = some s := by
  obtain ⟨row0, h0, hlen0⟩ := hgrid.row_zero
  have hC : env.ENTER ≠ env.CLEAR := fun h => hne h.symm
  have hstep : press env s env.ENTER = some s :=
    press_ENTER_short env s env.ENTER row0 hC rfl h0 (by omega)
  constructor
  · by_cases hp : s.gameState = GameState.playing
    · rw [onKeyPressed_ENTER env s env.ENTER row0 hC rfl hp h0, if_neg (by omega)]
    · exact onKeyPressed_of_not_playing env s _ hp
  · intro n
    induction n with
    | zero => rfl
    | succ m ih => simp only [List.replicate, pressAll, hstep, ih]

/-- Witness for C7: `ENTER` in the initial state of the `HELLO` game. -/
theorem premature_submit_witness :
    onKeyPressed helloEnv (initialState helloEnv) "ENTER" = some (initialState helloEnv) ∧
      pressAll helloEnv (initialState helloEnv) (List.replicate 3 "ENTER") =
        some (initialState helloEnv) :=
  ⟨(premature_submit helloEnv (initialState helloEnv) (by decide) (by decide) (by decide)).1,
    (premature_submit helloEnv (initialState helloEnv) (by decide) (by decide) (by decide)).2 3⟩

/-- C8: in every playing state with the grid of the data model, an active
row and the cursor inside its bounds, `onKeyPressed CLEAR` with `curCol > 0`
sets cell `(curRow, curCol - 1)` to the empty string, decrements `curCol` and
leaves `curRow`, the status and every other cell unchanged; with `curCol = 0`
it returns the state unchanged. -/
theorem clear_key (env : Env) (s : State) (hgrid : GridShape env s)
    (hp : s.gameState = GameState.playing) (hrow : s.curRow < NUMBER_OF_TRIES)
    (hcol : s.curCol ≤ env.letters.length) :
    (0 < s.curCol →
      ∃ s1, onKeyPressed env s env.CLEAR = some s1 ∧
        cellAt s1 s.curRow (s.curCol - 1) = some "" ∧
        s1.curCol = s.curCol - 1 ∧ s1.curRow = s.curRow ∧ s1.gameState = s.gameState ∧
        ∀ r c : Nat, ¬ (r = s.curRow ∧ c = s.curCol - 1) → cellAt s1 r c = cellAt s r c) ∧
      (s.curCol = 0 → onKeyPressed env s env.CLEAR = some s) := by
  refine ⟨?_, onKeyPressed_CLEAR_zero env s⟩
  intro hpos
  obtain ⟨row, hr, hlen⟩ := hgrid.row_at hrow
  refine ⟨_, onKeyPressed_CLEAR_pos env s row hp hr hpos (by omega), ?_, rfl, rfl, rfl, ?_⟩
  · rw [cellAt_set s _ _ row "" _ _ _ hr]
    have h1 : s.curCol - 1 < row.length := by omega
    simp [h1]
  · intro r c hne
    rw [cellAt_set s _ _ row "" _ _ _ hr]
    have h1 : ¬ (r = s.curRow ∧ c = s.curCol - 1 ∧ s.curCol - 1 < row.length) :=
      fun h => hne ⟨h.1, h.2.1⟩
    rw [if_neg h1]

/-- Witness for C8: `CLEAR` after `W` and `O` have been typed in the `HELLO`
game. -/
theorem clear_key_witness :
    ∃ s1, onKeyPressed helloEnv
        ⟨[["W", "O", "", "", ""], ["", "", "", "", ""], ["", "", "", "", ""],
          ["", "", "", "", ""], ["", "", "", "", ""], ["", "", "", "", ""]], 0, 2,
          GameState.playing⟩ helloEnv.CLEAR = some s1 ∧
      cellAt s1 0 1 = some "" ∧ s1.curCol = 1 ∧ s1.curRow = 0 ∧
      s1.gameState = GameState.playing ∧
      ∀ r c : Nat, ¬ (r = 0 ∧ c = 1) → cellAt s1 r c =
        cellAt ⟨[["W", "O", "", "", ""], ["", "", "", "", ""], ["", "", "", "", ""],
          ["", "", "", "", ""], ["", "", "", "", ""], ["", "", "", "", ""]], 0, 2,
          GameState.playing⟩ r c :=
  (clear_key helloEnv
    ⟨[["W", "O", "", "", ""], ["", "", "", "", ""], ["", "", "", "", ""],
      ["", "", "", "", ""], ["", "", "", "", ""], ["", "", "", "", ""]], 0, 2,
      GameState.playing⟩ (by decide) rfl (by decide) (by decide)).1 (by decide)

/-- C9: in every playing state with the grid of the data model and an
active row, for every key value that is neither `CLEAR` nor `ENTER` (every
letter key, the key constants not being letters), `onKeyPressed` with
`curCol < letters.length` writes the key into cell `(curRow, curCol)`,
increments `curCol` and leaves `curRow`, the status and every other cell
unchanged; with `curCol = letters.length` it returns the state unchanged. -/
theorem letter_key (env : Env) (s : State) (key : String)
    (hC : key ≠ env.CLEAR) (hE : key ≠ env.ENTER) (hgrid : GridShape env s)
    (hp : s.gameState = GameState.playing) (hrow : s.curRow < NUMBER_OF_TRIES) :
    (s.curCol < env.letters.length →
      ∃ s1, onKeyPressed env s key = some s1 ∧
        cellAt s1 s.curRow s.curCol = some key ∧
        s1.curCol = s.curCol + 1 ∧ s1.curRow = s.curRow ∧ s1.gameState = s.gameState ∧
        ∀ r c : Nat, ¬ (r = s.curRow ∧ c = s.curCol) → cellAt s1 r c = cellAt s r c) ∧
      (s.curCol = env.letters.length → onKeyPressed env s key = some s) := by
  obtain ⟨row0, h0, hlen0⟩ := hgrid.row_zero
  obtain ⟨row, hr, hlen⟩ := hgrid.row_at hrow
  constructor
  · intro hcol
    refine ⟨_, onKeyPressed_other env s key row0 row hC hE hp h0 hr (by omega) (by omega),
      ?_, rfl, rfl, rfl, ?_⟩
    · rw [cellAt_set s _ _ row key _ _ _ hr]
      have h1 : s.curCol < row.length := by omega
      simp [h1]
    · intro r c hne
      rw [cellAt_set s _ _ row key _ _ _ hr]
      have h1 : ¬ (r = s.curRow ∧ c = s.curCol ∧ s.curCol < row.length) :=
        fun h => hne ⟨h.1, h.2.1⟩
      rw [if_neg h1]
  · intro hcol
    exact onKeyPressed_other_full env s key row0 hC hE h0 (by omega)

/-- Witness for C9: the key `R` after `W` and `O` have been typed in the
`HELLO` game. -/
theorem letter_key_witness :
    ∃ s1, onKeyPressed helloEnv
        ⟨[["W", "O", "", "", ""], ["", "", "", "", ""], ["", "", "", "", ""],
          ["", "", "", "", ""], ["", "", "", "", ""], ["", "", "", "", ""]], 0, 2,
          GameState.playing⟩ "R" = some s1 ∧
      cellAt s1 0 2 = some "R" ∧ s1.curCol = 3 ∧ s1.curRow = 0 ∧
      s1.gameState = GameState.playing ∧
      ∀ r c : Nat, ¬ (r = 0 ∧ c = 2) → cellAt s1 r c =
        cellAt ⟨[["W", "O", "", "", ""], ["", "", "", "", ""], ["", "", "", "", ""],
          ["", "", "", "", ""], ["", "", "", "", ""], ["", "", "", "", ""]], 0, 2,
          GameState.playing⟩ r c :=
  (letter_key helloEnv
    ⟨[["W", "O", "", "", ""], ["", "", "", "", ""], ["", "", "", "", ""],
      ["", "", "", "", ""], ["", "", "", "", ""], ["", "", "", "", ""]], 0, 2,
      GameState.playing⟩ "R" (by decide) (by decide) (by decide) rfl (by decide)).1 (by decide)

/-! ## Status soundness -/

theorem reachable_pressAll (env : Env) (keys : List String) :
    ∀ s s1 : State, Reachable env s → pressAll env s keys = some s1 → Reachable env s1 := by
  induction keys with
  | nil =>
    intro s s1 hr h
    simp only [pressAll] at h
    cases h
    exact hr
  | cons k ks ih =>
    intro s s1 hr h
    simp only [pressAll] at h
    cases hp : press env s k with
    | none => rw [hp] at h; cases h
    | some s2 =>
      rw [hp] at h
      exact ih s2 s1 (Reachable.step k hr hp) h

/-- C10: in every state reachable from the initial state by key presses, if
the status is `won` then `curRow > 0` and row `curRow - 1` is the puzzle word
position for position; if the status is `lost` then
`curRow = NUMBER_OF_TRIES` and the last row is not the puzzle word. -/
theorem status_sound (env : Env) (s : State) (hreach : Reachable env s) :
    (s.gameState = GameState.won →
        0 < s.curRow ∧ s.rows[s.curRow - 1]? = some env.letters) ∧
      (s.gameState = GameState.lost →
        s.curRow = NUMBER_OF_TRIES ∧
        ∃ row, s.rows[NUMBER_OF_TRIES - 1]? = some row ∧ row ≠ env.letters) := by
  obtain ⟨hgrid, _, _, _, hwon, hlost⟩ := inv_of_reachable env s hreach
  refine ⟨hwon, ?_⟩
  intro hl
  obtain ⟨h1, h2⟩ := hlost hl
  obtain ⟨row, hr, _⟩ := hgrid.row_at (show NUMBER_OF_TRIES - 1 < NUMBER_OF_TRIES by decide)
  refine ⟨h1, row, hr, ?_⟩
  intro h3
  rw [hr, h3] at h2
  exact h2 rfl

/-- Witness for C10: the state of the `HELLO` game after `HELLO` has been
typed and submitted is reachable and won, and its row 0 is the puzzle
word. -/
theorem status_sound_witness :
    Reachable helloEnv
        ⟨[["H", "E", "L", "L", "O"], ["", "", "", "", ""], ["", "", "", "", ""],
          ["", "", "", "", ""], ["", "", "", "", ""], ["", "", "", "", ""]], 1, 0,
          GameState.won⟩ ∧
      (0 < 1 ∧ ([["H", "E", "L", "L", "O"], ["", "", "", "", ""], ["", "", "", "", ""],
          ["", "", "", "", ""], ["", "", "", "", ""], ["", "", "", "", ""]] :
          List (List String))[1 - 1]? = some helloEnv.letters) :=
  have hreach : Reachable helloEnv
      ⟨[["H", "E", "L", "L", "O"], ["", "", "", "", ""], ["", "", "", "", ""],
        ["", "", "", "", ""], ["", "", "", "", ""], ["", "", "", "", ""]], 1, 0,
        GameState.won⟩ :=
    reachable_pressAll helloEnv ["H", "E", "L", "L", "O", "ENTER"] (initialState helloEnv) _
      Reachable.init (by decide)
  ⟨hreach, (status_sound helloEnv _ hreach).1 rfl⟩

/-! ## Array methods with an index -/

theorem mapFrom_const {α β : Type} (g : Nat → β) (xs : List α) :
    ∀ i : Nat, mapFrom (fun _ j => g j) i xs =
      (List.range xs.length).map fun k => g (i + k) := by
  induction xs with
  | nil => intro i; rfl
  | cons x xs ih =>
    intro i
    simp only [mapFrom, List.length_cons, List.range_succ_eq_map, List.map_cons, List.map_map,
      ih (i + 1), Nat.add_zero]
    congr 1
    apply List.map_congr_left
    intro k _
    simp [Nat.add_assoc, Nat.add_comm 1 k]

theorem mapFrom_congr {α β : Type} (f g : α → Nat → β) (xs : List α)
    (h : ∀ x ∈ xs, ∀ k : Nat, f x k = g x k) :
    ∀ i : Nat, mapFrom f i xs = mapFrom g i xs := by
  induction xs with
  | nil => intro i; rfl
  | cons x xs ih =>
    intro i
    simp only [mapFrom]
    rw [h x (List.mem_cons_self _ _) i,
      ih (fun y hy k => h y (List.mem_cons_of_mem _ hy) k) (i + 1)]

theorem mem_filterFrom (f : String → Nat → Bool) (x : String) (row : List String) :
    ∀ i : Nat, x ∈ filterFrom f i row ↔ ∃ j : Nat, row[j]? = some x ∧ f x (i + j) = true := by
  induction row with
  | nil => intro i; simp [filterFrom]
  | cons y ys ih =>
    intro i
    have hstep : (x ∈ filterFrom f (i + 1) ys) ↔
        ∃ j : Nat, (y :: ys)[j + 1]? = some x ∧ f x (i + (j + 1)) = true := by
      rw [ih (i + 1)]
      constructor
      · rintro ⟨j, h1, h2⟩
        exact ⟨j, by simpa using h1, by simpa [Nat.add_assoc, Nat.add_comm 1 j] using h2⟩
      · rintro ⟨j, h1, h2⟩
        exact ⟨j, by simpa using h1, by simpa [Nat.add_assoc, Nat.add_comm 1 j] using h2⟩
    constructor
    · intro hx
      simp only [filterFrom] at hx
      by_cases hf : f y i = true
      · rw [if_pos hf] at hx
        rcases List.mem_cons.mp hx with h | h
        · subst h
          exact ⟨0, by simp, by simpa using hf⟩
        · obtain ⟨j, h1, h2⟩ := hstep.mp h
          exact ⟨j + 1, h1, h2⟩
      · rw [if_neg hf] at hx
        obtain ⟨j, h1, h2⟩ := hstep.mp hx
        exact ⟨j + 1, h1, h2⟩
    · rintro ⟨j, h1, h2⟩
      simp only [filterFrom]
      cases j with
      | zero =>
        have hy : y = x := by simpa using h1
        subst hy
        have hf : f y i = true := by simpa using h2
        rw [if_pos hf]
        exact List.mem_cons_self _ _
      | succ k =>
        have hmem := hstep.mpr ⟨k, h1, h2⟩
        by_cases hf : f y i = true
        · rw [if_pos hf]; exact List.mem_cons_of_mem _ hmem
        · rw [if_neg hf]; exact hmem

theorem mem_flatMapFrom (f : List String → Nat → List String) (x : String)
    (rows : List (List String)) :
    ∀ i : Nat, x ∈ flatMapFrom f i rows ↔
      ∃ (k : Nat) (row : List String), rows[k]? = some row ∧ x ∈ f row (i + k) := by
  induction rows with
  | nil => intro i; simp [flatMapFrom]
  | cons r rs ih =>
    intro i
    simp only [flatMapFrom, List.mem_append, ih (i + 1)]
    constructor
    · rintro (h | ⟨k, row, h1, h2⟩)
      · exact ⟨0, r, by simp, by simpa using h⟩
      · exact ⟨k + 1, row, by simpa using h1,
          by simpa [Nat.add_assoc, Nat.add_comm 1 k] using h2⟩
    · rintro ⟨k, row, h1, h2⟩
      cases k with
      | zero =>
        have hr : r = row := by simpa using h1
        subst hr
        exact Or.inl (by simpa using h2)
      | succ m =>
        exact Or.inr ⟨m, row, by simpa using h1,
          by simpa [Nat.add_assoc, Nat.add_comm 1 m] using h2⟩

/-! ## Colours of completed and of other rows -/

theorem getCellBGColor_of_le (env : Env) (s : State) (row col : Nat) (r : List String)
    (hr : s.rows[row]? = some r) (hle : s.curRow ≤ row) :
    getCellBGColor env s row col = some Color.black := by
  simp [getCellBGColor, hr, hle]

theorem getCellBGColor_of_lt (env : Env) (s : State) (row col : Nat) (r : List String)
    (hr : s.rows[row]? = some r) (hlt : row < s.curRow) :
    ∃ c, getCellBGColor env s row col = some c ∧ c ≠ Color.black := by
  have h1 : ¬ row ≥ s.curRow := by omega
  simp only [getCellBGColor, hr, h1, if_false]
  by_cases h2 : r[col]? = env.letters[col]?
  · exact ⟨Color.primary, by simp [h2], by decide⟩
  · by_cases h3 : includes env.letters r[col]? = true
    · exact ⟨Color.secondary, by simp [h2, h3], by decide⟩
    · exact ⟨Color.darkgrey, by simp [h2, h3], by decide⟩

theorem lt_of_getCellBGColor (env : Env) (s : State) (row col : Nat) (c : Color)
    (h : getCellBGColor env s row col = some c) (hc : c ≠ Color.black) : row < s.curRow := by
  rcases Nat.lt_or_ge row s.curRow with hlt | hge
  · exact hlt
  · cases hr : s.rows[row]? with
    | none => simp [getCellBGColor, hr] at h
    | some r =>
      rw [getCellBGColor_of_le env s row col r hr hge] at h
      exact absurd (Option.some.inj h).symm hc

/-- Membership in the list that `getAllLettersWithColor` returns. -/
theorem mem_getAllLettersWithColor (env : Env) (s : State) (color : Color) (x : String) :
    x ∈ getAllLettersWithColor env s color ↔
      ∃ i j : Nat, cellAt s i j = some x ∧ getCellBGColor env s i j = some color := by
  unfold getAllLettersWithColor
  rw [mem_flatMapFrom]
  constructor
  · rintro ⟨i, row, hrow, hx⟩
    obtain ⟨j, hj, hcol⟩ := (mem_filterFrom _ x row 0).mp hx
    refine ⟨i, j, by simp [cellAt, hrow, hj], ?_⟩
    simpa using hcol
  · rintro ⟨i, j, hcell, hcol⟩
    unfold cellAt at hcell
    cases hrow : s.rows[i]? with
    | none => rw [hrow] at hcell; cases hcell
    | some row =>
      rw [hrow] at hcell
      refine ⟨i, row, hrow, (mem_filterFrom _ x row 0).mpr ⟨j, hcell, ?_⟩⟩
      simpa using hcol

/-! ## What a key press leaves alone -/

theorem assignCell_getElem?_ne (arr rs : List (List String)) (r c : Nat) (v : String)
    (h : assignCell arr r c v = some rs) (r1 : Nat) (hne : r1 ≠ r) : rs[r1]? = arr[r1]? := by
  unfold assignCell at h
  cases hrow : arr[r]? with
  | none => rw [hrow] at h; cases h
  | some row =>
    rw [hrow] at h
    simp only at h
    by_cases hc : c < row.length
    · rw [if_pos hc] at h
      cases h
      exact List.getElem?_set_ne (Ne.symm hne)
    · rw [if_neg hc] at h; cases h

/-- The rows other than the active row are the same after `onKeyPressed`. -/
theorem onKeyPressed_rows (env : Env) (s s1 : State) (key : String)
    (h : onKeyPressed env s key = some s1) (r : Nat) (hne : r ≠ s.curRow) :
    s1.rows[r]? = s.rows[r]? := by
  unfold onKeyPressed at h
  simp only [copyArray_eq] at h
  split at h
  · cases h; rfl
  · split at h
    · split at h
      · cases ha : assignCell s.rows s.curRow ((s.curCol : Int) - 1).toNat "" with
        | none => rw [ha] at h; cases h
        | some rs =>
          rw [ha] at h
          cases h
          exact assignCell_getElem?_ne _ _ _ _ _ ha r hne
      · cases h; rfl
    · split at h
      · split at h
        · cases h
        · split at h <;> (cases h; rfl)
      · split at h
        · cases h
        · split at h
          · cases ha : assignCell s.rows s.curRow s.curCol key with
            | none => rw [ha] at h; cases h
            | some rs =>
              rw [ha] at h
              cases h
              exact assignCell_getElem?_ne _ _ _ _ _ ha r hne
          · cases h; rfl

/-- A state that satisfies the invariant accepts every key: `onKeyPressed`
and the effect that follows complete. -/
theorem press_total (env : Env) (s : State) (key : String) (hinv : Inv env s) :
    ∃ s1, press env s key = some s1 := by
  rcases press_cases env s key hinv with h | ⟨_, _, _, _, _, _, h⟩ |
      ⟨_, _, _, _, _, _, _, h⟩ | ⟨_, _, _, _, _, _, _, h⟩ <;> exact ⟨_, h⟩

theorem onKeyPressed_total (env : Env) (s : State) (key : String) (hinv : Inv env s) :
    ∃ s1, onKeyPressed env s key = some s1 := by
  obtain ⟨s1, h⟩ := press_total env s key hinv
  unfold press at h
  cases hk : onKeyPressed env s key with
  | none => rw [hk] at h; cases h
  | some s2 => exact ⟨s2, rfl⟩

/-! ## The cells at and after the cursor -/

theorem cursorEmpty_initialState (env : Env) : CursorEmpty env (initialState env) := by
  intro r c hr hc _
  simp [cellAt, initialState, List.getElem?_replicate, hr, hc]

theorem cursorEmpty_press (env : Env) (s s1 : State) (key : String) (hinv : Inv env s)
    (hempty : CursorEmpty env s) (hstep : press env s key = some s1) : CursorEmpty env s1 := by
  have hcolle := hinv.2.1
  rcases press_cases env s key hinv with h | ⟨row, hp, hrow, hlen, hpos, _, h⟩ |
      ⟨row, hp, hrow, hlen, hlt, _, _, h⟩ | ⟨row, hp, hrow, hlen, hfull, _, _, h⟩
  · rw [h] at hstep
    cases hstep
    exact hempty
  · rw [h] at hstep
    cases hstep
    intro r c hr hc hcond
    rw [cellAt_set s _ _ row "" _ _ _ hrow]
    by_cases hif : r = s.curRow ∧ c = s.curCol - 1 ∧ s.curCol - 1 < row.length
    · rw [if_pos hif]
    · rw [if_neg hif]
      apply hempty r c hr hc
      rcases hcond with h1 | ⟨h1, h2⟩
      · exact Or.inl h1
      · refine Or.inr ⟨h1, ?_⟩
        have h3 : s.curCol - 1 ≤ c := h2
        have h4 : c ≠ s.curCol - 1 := fun h5 => hif ⟨h1, h5, by omega⟩
        omega
  · rw [h] at hstep
    cases hstep
    intro r c hr hc hcond
    rw [cellAt_set s _ _ row key _ _ _ hrow]
    have hif : ¬ (r = s.curRow ∧ c = s.curCol ∧ s.curCol < row.length) := by
      rintro ⟨h1, h2, _⟩
      rcases hcond with h3 | ⟨_, h4⟩
      · have h5 : s.curRow < r := h3
        omega
      · have h5 : s.curCol + 1 ≤ c := h4
        omega
    rw [if_neg hif]
    apply hempty r c hr hc
    rcases hcond with h1 | ⟨h1, h2⟩
    · exact Or.inl h1
    · refine Or.inr ⟨h1, ?_⟩
      have h3 : s.curCol + 1 ≤ c := h2
      omega
  · rw [h] at hstep
    cases hstep
    intro r c hr hc hcond
    have hold : cellAt s r c = some "" := by
      apply hempty r c hr hc
      rcases hcond with h1 | ⟨h1, _⟩
      · have h2 : s.curRow + 1 < r := h1
        exact Or.inl (by omega)
      · have h2 : r = s.curRow + 1 := h1
        exact Or.inl (by omega)
    simpa [cellAt] using hold

theorem cursorEmpty_of_reachable (env : Env) (s : State) (h : Reachable env s) :
    CursorEmpty env s := by
  induction h with
  | init => exact cursorEmpty_initialState env
  | step key hprev hstep ih =>
    exact cursorEmpty_press env _ _ key (inv_of_reachable env _ hprev) ih hstep

/-! ## The game with the empty puzzle word -/

theorem emptyWord_press (env : Env) (s s1 : State) (key : String) (hinv : Inv env s)
    (hL : env.letters.length = 0)
    (hs : (s.curRow = 0 ∧ s.gameState = GameState.playing) ∨
      (s.curRow = 1 ∧ s.gameState ≠ GameState.playing))
    (hstep : press env s key = some s1) :
    (s1.curRow = 0 ∧ s1.gameState = GameState.playing) ∨
      (s1.curRow = 1 ∧ s1.gameState ≠ GameState.playing) := by
  have hcolle := hinv.2.1
  rcases press_cases env s key hinv with h | ⟨row, hp, hrow, hlen, hpos, _, h⟩ |
      ⟨row, hp, hrow, hlen, hlt, _, _, h⟩ | ⟨row, hp, hrow, hlen, hfull, _, _, h⟩
  · rw [h] at hstep
    cases hstep
    exact hs
  · omega
  · omega
  · rw [h] at hstep
    cases hstep
    rcases hs with ⟨h1, _⟩ | ⟨_, h2⟩
    · right
      have hrow0 : row = [] := List.eq_nil_of_length_eq_zero (by omega)
      have hlet : env.letters = [] := List.eq_nil_of_length_eq_zero hL
      refine ⟨by simp [h1], ?_⟩
      simp [statusAfter, hrow0, hlet]
    · exact absurd hp h2

theorem emptyWord_of_reachable (env : Env) (s : State) (h : Reachable env s)
    (hL : env.letters.length = 0) :
    (s.curRow = 0 ∧ s.gameState = GameState.playing) ∨
      (s.curRow = 1 ∧ s.gameState ≠ GameState.playing) := by
  induction h with
  | init => exact Or.inl ⟨rfl, rfl⟩
  | step key hprev hstep ih =>
    exact emptyWord_press env _ _ key (inv_of_reachable env _ hprev) hL ih hstep

/-! ## The share text -/

theorem append_ne_empty (a b : String) (h : a ≠ "") : a ++ b ≠ "" := by
  intro hab
  apply h
  have h1 : (a ++ b).data = [] := by rw [hab]
  rw [String.data_append] at h1
  have h2 : a.data = [] := (List.append_eq_nil.mp h1).1
  exact String.ext h2

theorem join_cons_ne_empty (sep sym : String) (rest : List (Option String)) (h : sym ≠ "") :
    join sep (some sym :: rest) ≠ "" := by
  cases rest with
  | nil => simpa [join] using h
  | cons y ys =>
    simp only [join, Option.getD_some, String.append_assoc]
    exact append_ne_empty _ _ h

theorem join_eq_empty (l : List (Option String)) (h : ∀ x ∈ l, x.getD "" = "") :
    join "" l = "" := by
  induction l with
  | nil => rfl
  | cons x xs ih =>
    have hx := h x (List.mem_cons_self _ _)
    have hxs := ih (fun y hy => h y (List.mem_cons_of_mem _ hy))
    cases xs with
    | nil => simpa [join] using hx
    | cons y ys =>
      simp only [join] at hxs ⊢
      rw [hx, hxs]
      rfl

/-- The line of a completed row is not empty when the puzzle word is not. -/
theorem rowLine_ne_empty (env : Env) (colorsToEmoji : Color → Option String) (s : State)
    (i : Nat) (r : List String) (hr : s.rows[i]? = some r) (hlt : i < s.curRow)
    (hL : 0 < env.letters.length)
    (hsym : ∀ c, c ≠ Color.black → ∃ sym, colorsToEmoji c = some sym ∧ sym ≠ "") :
    join "" (rowSymbols env colorsToEmoji s i) ≠ "" := by
  obtain ⟨n, hn⟩ : ∃ n, env.letters.length = n + 1 := ⟨env.letters.length - 1, by omega⟩
  obtain ⟨c, hc, hcb⟩ := getCellBGColor_of_lt env s i 0 r hr hlt
  obtain ⟨sym, hs1, hs2⟩ := hsym c hcb
  simp only [rowSymbols, hn, List.range_succ_eq_map, List.map_cons, hc, Option.some_bind, hs1]
  exact join_cons_ne_empty _ _ _ hs2

/-- The line of a row that is not completed is empty. -/
theorem rowLine_eq_empty (env : Env) (colorsToEmoji : Color → Option String) (s : State)
    (i : Nat) (r : List String) (hr : s.rows[i]? = some r) (hle : s.curRow ≤ i)
    (hblack : (colorsToEmoji Color.black).getD "" = "") :
    join "" (rowSymbols env colorsToEmoji s i) = "" := by
  apply join_eq_empty
  intro x hx
  simp only [rowSymbols, List.mem_map] at hx
  obtain ⟨j, _, hj⟩ := hx
  rw [getCellBGColor_of_le env s i j r hr hle] at hj
  rw [← hj]
  simpa using hblack

/-- The lines that `shareScore` computes before `filter`, one per row of the
grid. -/
theorem shareScore_lines (env : Env) (colorsToEmoji : Color → Option String) (s : State)
    (hgrid : GridShape env s) :
    mapFrom (fun row i =>
        join "" (mapFrom (fun _cell j => (getCellBGColor env s i j).bind colorsToEmoji) 0 row))
        0 s.rows =
      (List.range s.rows.length).map fun i => join "" (rowSymbols env colorsToEmoji s i) := by
  rw [mapFrom_congr _ (fun _ i => join "" (rowSymbols env colorsToEmoji s i)) s.rows ?_ 0,
    mapFrom_const]
  · simp
  · intro row hrow i
    rw [mapFrom_const, hgrid.2 row hrow]
    simp [rowSymbols]

/-- The text of `shareScore` is the share text of the specification, in
every state with the grid of the data model and `curRow` inside the grid
(and with at most one completed row when the puzzle word is empty). -/
theorem shareScore_eq_shareText (env : Env) (colorsToEmoji : Color → Option String) (s : State)
    (hgrid : GridShape env s) (hrow : s.curRow ≤ NUMBER_OF_TRIES)
    (hzero : env.letters.length = 0 → s.curRow ≤ 1)
    (hblack : (colorsToEmoji Color.black).getD "" = "")
    (hsym : ∀ c, c ≠ Color.black → ∃ sym, colorsToEmoji c = some sym ∧ sym ≠ "") :
    shareScore env colorsToEmoji s = shareText env colorsToEmoji s := by
  have hR : s.rows.length = NUMBER_OF_TRIES := hgrid.1
  obtain ⟨d, hd⟩ : ∃ d, s.rows.length = s.curRow + d := ⟨s.rows.length - s.curRow, by omega⟩
  unfold shareScore shareText
  simp only [shareScore_lines env colorsToEmoji s hgrid]
  congr 1
  by_cases hL : 0 < env.letters.length
  · have hkeep : List.filter (fun row => row != "")
        ((List.range s.curRow).map fun i => join "" (rowSymbols env colorsToEmoji s i)) =
        (List.range s.curRow).map fun i => join "" (rowSymbols env colorsToEmoji s i) := by
      rw [List.filter_eq_self]
      intro a ha
      obtain ⟨i, hi, rfl⟩ := List.mem_map.mp ha
      have hi1 : i < s.curRow := List.mem_range.mp hi
      obtain ⟨r, hr, _⟩ := hgrid.row_at (show i < NUMBER_OF_TRIES by omega)
      simpa using rowLine_ne_empty env colorsToEmoji s i r hr hi1 hL hsym
    have hdrop : List.filter (fun row => row != "")
        ((List.map (fun x => s.curRow + x) (List.range d)).map
          fun i => join "" (rowSymbols env colorsToEmoji s i)) = [] := by
      rw [List.filter_eq_nil_iff]
      intro a ha
      obtain ⟨i, hi, rfl⟩ := List.mem_map.mp ha
      obtain ⟨k, hk, rfl⟩ := List.mem_map.mp hi
      have hk1 : k < d := List.mem_range.mp hk
      obtain ⟨r, hr, _⟩ := hgrid.row_at (show s.curRow + k < NUMBER_OF_TRIES by omega)
      simp [rowLine_eq_empty env colorsToEmoji s (s.curRow + k) r hr (by omega) hblack]
    rw [hd, List.range_add, List.map_append, List.filter_append, hkeep, hdrop]
    simp only [List.append_nil, List.map_map]
    rfl
  · have hL0 : env.letters.length = 0 := by omega
    have hline : ∀ i : Nat, join "" (rowSymbols env colorsToEmoji s i) = "" := by
      intro i
      simp [rowSymbols, hL0, join]
    have hnone : List.filter (fun row => row != "")
        ((List.range s.rows.length).map
          fun i => join "" (rowSymbols env colorsToEmoji s i)) = [] := by
      rw [List.filter_eq_nil_iff]
      intro a ha
      obtain ⟨i, _, rfl⟩ := List.mem_map.mp ha
      simp [hline i]
    rw [hnone]
    have hk := hzero hL0
    rcases Nat.lt_or_ge s.curRow 1 with h0 | h1
    · have : s.curRow = 0 := by omega
      simp [this, join]
    · have : s.curRow = 1 := by omega
      simp [this, join, hline 0, List.range_succ_eq_map]

/-- The text of `shareScore` is the share text of the specification in every
reachable state. -/
theorem shareScore_reachable (env : Env) (colorsToEmoji : Color → Option String) (s : State)
    (hreach : Reachable env s)
    (hblack : (colorsToEmoji Color.black).getD "" = "")
    (hsym : ∀ c, c ≠ Color.black → ∃ sym, colorsToEmoji c = some sym ∧ sym ≠ "") :
    shareScore env colorsToEmoji s = shareText env colorsToEmoji s := by
  have hinv := inv_of_reachable env s hreach
  apply shareScore_eq_shareText env colorsToEmoji s hinv.1 hinv.2.2.1 ?_ hblack hsym
  intro hL
  rcases emptyWord_of_reachable env s hreach hL with ⟨h, _⟩ | ⟨h, _⟩ <;> omega

/-! ## Further facts about rows and guesses -/

theorem set_eq_self_of_getElem? {α : Type} (l : List α) (i : Nat) (a : α)
    (h : l[i]? = some a) : l.set i a = l := by
  apply List.ext_getElem?
  intro j
  by_cases hj : j = i
  · rw [hj]
    rcases Nat.lt_or_ge i l.length with hlt | hge
    · rw [List.getElem?_set_self hlt, h]
    · rw [List.getElem?_eq_none hge] at h; cases h
  · rw [List.getElem?_set_ne (Ne.symm hj)]

theorem submitAll_append (env : Env) (guesses1 guesses2 : List (List String)) :
    ∀ s : State, submitAll env s (guesses1 ++ guesses2) =
      (submitAll env s guesses1).bind fun s1 => submitAll env s1 guesses2 := by
  induction guesses1 with
  | nil => intro s; simp [submitAll]
  | cons g gs ih =>
    intro s
    simp only [List.cons_append, submitAll]
    cases pressAll env s (g ++ [env.ENTER]) with
    | none => rfl
    | some s1 => exact ih s1

/-- The state after wrong guesses have been submitted while rows remain:
the cursor is at column 0 of row `curRow + guesses.length`, the invariant
holds, and the status is `lost` exactly when the last row has been used. -/
theorem submitAll_wrong_state (env : Env) (hne : env.CLEAR ≠ env.ENTER)
    (guesses : List (List String)) :
    ∀ s : State, Inv env s → s.gameState = GameState.playing → s.curCol = 0 →
      s.curRow + guesses.length ≤ NUMBER_OF_TRIES →
      (∀ g ∈ guesses, g.length = env.letters.length ∧ g ≠ env.letters ∧
        ∀ k ∈ g, k ≠ env.CLEAR ∧ k ≠ env.ENTER) →
      ∃ s1, submitAll env s guesses = some s1 ∧ s1.curRow = s.curRow + guesses.length ∧
        s1.curCol = 0 ∧ Inv env s1 ∧
        s1.gameState = (if s.curRow + guesses.length = NUMBER_OF_TRIES then GameState.lost
          else GameState.playing) := by
  induction guesses with
  | nil =>
    intro s hinv hp hcol _ _
    have hlt := hinv.2.2.2.1 hp
    refine ⟨s, rfl, rfl, hcol, hinv, ?_⟩
    simp [hp, Nat.ne_of_lt hlt]
  | cons g gs ih =>
    intro s hinv hp hcol hle hwrong
    simp only [List.length_cons] at hle
    obtain ⟨hglen, hgne, hgkeys⟩ := hwrong g (List.mem_cons_self _ _)
    have hstep := pressAll_submit env s g hne hinv.1 hp (hinv.2.2.2.1 hp) hcol hglen hgkeys
    have hinv1 := inv_pressAll env _ s _ hinv hstep
    simp only [submitAll, hstep, List.length_cons]
    have hR : s.rows.length = NUMBER_OF_TRIES := hinv.1.1
    by_cases hlast : s.curRow + 1 = NUMBER_OF_TRIES
    · have hgs : gs = [] := List.eq_nil_of_length_eq_zero (by omega)
      subst hgs
      refine ⟨_, rfl, by simp, rfl, hinv1, ?_⟩
      simp [statusAfter, hgne, hR, hlast]
    · have hst : statusAfter env s g = GameState.playing := by
        simp [statusAfter, hgne, hR, hlast]
      rw [hst] at hinv1 ⊢
      obtain ⟨s1, h1, h2, h3, h4, h5⟩ := ih _ hinv1 rfl rfl (by simp; omega)
        (fun g1 hg1 => hwrong g1 (List.mem_cons_of_mem _ hg1))
      refine ⟨s1, h1, ?_, h3, h4, ?_⟩
      · rw [h2]; simp; omega
      · rw [h5]
        simp only [Nat.add_assoc, Nat.add_comm 1 gs.length]

/-! ## Share text and keyboard lists -/

/-- C11: in every reachable state, with a symbol table that has a non-empty
symbol for each of the colours `primary`, `secondary` and `darkgrey` and none
for the default colour, the text built by `shareScore` is the title line
followed by exactly `curRow` lines, one per completed row in order; each line
is made of exactly `letters.length` symbols, the symbol at column `j` being
the one of the colour of cell `(i, j)`, which is not the default colour. Rows
with index `≥ curRow` contribute no line. -/
theorem share_text (env : Env) (colorsToEmoji : Color → Option String) (s : State)
    (hreach : Reachable env s)
    (hblack : (colorsToEmoji Color.black).getD "" = "")
    (hsym : ∀ c, c ≠ Color.black → ∃ sym, colorsToEmoji c = some sym ∧ sym ≠ "") :
    shareScore env colorsToEmoji s =
        "Wordle \n" ++ join "\n" ((List.range s.curRow).map fun i =>
          some (join "" (rowSymbols env colorsToEmoji s i))) ∧
      ((List.range s.curRow).map fun i =>
          some (join "" (rowSymbols env colorsToEmoji s i))).length = s.curRow ∧
      ∀ i : Nat, i < s.curRow →
        (rowSymbols env colorsToEmoji s i).length = env.letters.length ∧
        ∀ j : Nat, j < env.letters.length →
          ∃ c sym, getCellBGColor env s i j = some c ∧ c ≠ Color.black ∧
            colorsToEmoji c = some sym ∧ sym ≠ "" ∧
            (rowSymbols env colorsToEmoji s i)[j]? = some (some sym) := by
  have hinv := inv_of_reachable env s hreach
  refine ⟨shareScore_reachable env colorsToEmoji s hreach hblack hsym, by simp, ?_⟩
  intro i hi
  refine ⟨by simp [rowSymbols], ?_⟩
  intro j hj
  obtain ⟨r, hr, _⟩ := hinv.1.row_at (show i < NUMBER_OF_TRIES by have := hinv.2.2.1; omega)
  obtain ⟨c, hc, hcb⟩ := getCellBGColor_of_lt env s i j r hr hi
  obtain ⟨sym, hs1, hs2⟩ := hsym c hcb
  refine ⟨c, sym, hc, hcb, hs1, hs2, ?_⟩
  simp [rowSymbols, List.getElem?_range hj, hc, hs1, hj]

/-- Witness for C11: two completed rows in the `HELLO` game give two lines of
five symbols. -/
theorem share_text_witness :
    Reachable helloEnv twoRowsState ∧
      shareScore helloEnv exampleEmoji twoRowsState = "Wordle \n⬛🟧⬛🟩⬛\n🟧⬛⬛🟧🟧" :=
  have hreach : Reachable helloEnv twoRowsState :=
    reachable_pressAll helloEnv
      ["W", "O", "R", "L", "D", "ENTER", "L", "A", "T", "H", "E", "ENTER", "Q"]
      (initialState helloEnv) _ Reachable.init (by decide)
  ⟨hreach, (share_text helloEnv exampleEmoji twoRowsState hreach (by decide)
    (by intro c hc; cases c <;> simp [exampleEmoji] at hc ⊢)).1.trans (by decide)⟩

/-- C12: for every state and every letter, the letter is in `greenCaps` iff
some cell of a completed row (`row < curRow`) holds it and is coloured
`primary`, in `yellowCaps` iff some cell of a completed row holds it and is
coloured `secondary`, in `greyCaps` iff some cell of a completed row holds it
and is coloured `darkgrey`; it is in none of the three lists iff it occurs in
no completed row, whatever the other rows hold. -/
theorem keyboard_lists (env : Env) (s : State) (x : String) :
    (x ∈ greenCaps env s ↔ ∃ i j : Nat, i < s.curRow ∧ cellAt s i j = some x ∧
        getCellBGColor env s i j = some Color.primary) ∧
      (x ∈ yellowCaps env s ↔ ∃ i j : Nat, i < s.curRow ∧ cellAt s i j = some x ∧
        getCellBGColor env s i j = some Color.secondary) ∧
      (x ∈ greyCaps env s ↔ ∃ i j : Nat, i < s.curRow ∧ cellAt s i j = some x ∧
        getCellBGColor env s i j = some Color.darkgrey) ∧
      ((x ∉ greenCaps env s ∧ x ∉ yellowCaps env s ∧ x ∉ greyCaps env s) ↔
        ¬ ∃ i j : Nat, i < s.curRow ∧ cellAt s i j = some x) := by
  have hlist : ∀ c : Color, c ≠ Color.black →
      (x ∈ getAllLettersWithColor env s c ↔ ∃ i j : Nat, i < s.curRow ∧
        cellAt s i j = some x ∧ getCellBGColor env s i j = some c) := by
    intro c hc
    rw [mem_getAllLettersWithColor]
    constructor
    · rintro ⟨i, j, h1, h2⟩
      exact ⟨i, j, lt_of_getCellBGColor env s i j c h2 hc, h1, h2⟩
    · rintro ⟨i, j, _, h1, h2⟩
      exact ⟨i, j, h1, h2⟩
  have hg := hlist Color.primary (by decide)
  have hy := hlist Color.secondary (by decide)
  have hd := hlist Color.darkgrey (by decide)
  refine ⟨hg, hy, hd, ?_⟩
  constructor
  · rintro ⟨h1, h2, h3⟩ ⟨i, j, hlt, hcell⟩
    have hrow : ∃ r, s.rows[i]? = some r := by
      unfold cellAt at hcell
      cases hr : s.rows[i]? with
      | none => rw [hr] at hcell; cases hcell
      | some r => exact ⟨r, rfl⟩
    obtain ⟨r, hr⟩ := hrow
    obtain ⟨c, hc, hcb⟩ := getCellBGColor_of_lt env s i j r hr hlt
    cases c with
    | black => exact hcb rfl
    | primary => exact h1 (hg.mpr ⟨i, j, hlt, hcell, hc⟩)
    | secondary => exact h2 (hy.mpr ⟨i, j, hlt, hcell, hc⟩)
    | darkgrey => exact h3 (hd.mpr ⟨i, j, hlt, hcell, hc⟩)
  · intro hno
    refine ⟨?_, ?_, ?_⟩
    · intro h
      obtain ⟨i, j, h1, h2, _⟩ := hg.mp h
      exact hno ⟨i, j, h1, h2⟩
    · intro h
      obtain ⟨i, j, h1, h2, _⟩ := hy.mp h
      exact hno ⟨i, j, h1, h2⟩
    · intro h
      obtain ⟨i, j, h1, h2, _⟩ := hd.mp h
      exact hno ⟨i, j, h1, h2⟩

/-! ## Frame, bounds and shape -/

/-- C13: for every state and every key, when `onKeyPressed` returns, every
cell of every row with index `< curRow` is unchanged, and so is every row
other than the active row (a write or a clear touches the active row of the
copy only); and `onKeyPressed` does return on every state that satisfies the
invariant of the reachable states. -/
theorem completed_rows_immutable (env : Env) (s : State) (key : String) :
    (∀ s1, onKeyPressed env s key = some s1 →
        ∀ r c : Nat, r < s.curRow → cellAt s1 r c = cellAt s r c) ∧
      (∀ s1, onKeyPressed env s key = some s1 →
        ∀ r : Nat, r ≠ s.curRow → s1.rows[r]? = s.rows[r]?) ∧
      (Inv env s → ∃ s1, onKeyPressed env s key = some s1) := by
  refine ⟨?_, ?_, onKeyPressed_total env s key⟩
  · intro s1 h r c hr
    unfold cellAt
    rw [onKeyPressed_rows env s s1 key h r (by omega)]
  · intro s1 h r hr
    exact onKeyPressed_rows env s s1 key h r hr

/-- Witness for C13: the key `U` in the `HELLO` game with two completed rows
leaves the cells of rows 0 and 1 as they are. -/
theorem completed_rows_immutable_witness :
    ∃ s1, onKeyPressed helloEnv twoRowsState "U" = some s1 ∧
      cellAt s1 0 3 = cellAt twoRowsState 0 3 ∧ cellAt s1 1 4 = cellAt twoRowsState 1 4 :=
  have h : onKeyPressed helloEnv twoRowsState "U" =
      some ⟨[["W", "O", "R", "L", "D"], ["L", "A", "T", "H", "E"], ["Q", "U", "", "", ""],
        ["", "", "", "", ""], ["", "", "", "", ""], ["", "", "", "", ""]], 2, 2,
        GameState.playing⟩ := by decide
  ⟨_, h, (completed_rows_immutable helloEnv twoRowsState "U").1 _ h 0 3 (by decide),
    (completed_rows_immutable helloEnv twoRowsState "U").1 _ h 1 4 (by decide)⟩

/-- C14: in every state reachable from the initial state by key presses (each
followed by the status recomputation), `curCol ≤ letters.length`,
`curRow ≤ NUMBER_OF_TRIES`, and `curRow < NUMBER_OF_TRIES` whenever the status
is `playing`, in which case the active row `rows[curRow]` exists; every key
press completes and leaves `curRow ≤ NUMBER_OF_TRIES`. -/
theorem cursor_bounds (env : Env) (s : State) (hreach : Reachable env s) :
    s.curCol ≤ env.letters.length ∧ s.curRow ≤ NUMBER_OF_TRIES ∧
      (s.gameState = GameState.playing →
        s.curRow < NUMBER_OF_TRIES ∧
        ∃ row, s.rows[s.curRow]? = some row ∧ row.length = env.letters.length) ∧
      ∀ key : String, ∃ s1, press env s key = some s1 ∧ s1.curRow ≤ NUMBER_OF_TRIES ∧
        s1.curCol ≤ env.letters.length := by
  have hinv := inv_of_reachable env s hreach
  refine ⟨hinv.2.1, hinv.2.2.1, ?_, ?_⟩
  · intro hp
    exact ⟨hinv.2.2.2.1 hp, hinv.1.row_at (hinv.2.2.2.1 hp)⟩
  · intro key
    obtain ⟨s1, h⟩ := press_total env s key hinv
    have hinv1 := inv_press env s s1 key hinv h
    exact ⟨s1, h, hinv1.2.2.1, hinv1.2.1⟩

/-- Witness for C14: the reachable state of the `HELLO` game with two
completed rows. -/
theorem cursor_bounds_witness :
    Reachable helloEnv twoRowsState ∧
      twoRowsState.curCol ≤ helloEnv.letters.length ∧
      twoRowsState.curRow ≤ NUMBER_OF_TRIES :=
  have hreach : Reachable helloEnv twoRowsState :=
    reachable_pressAll helloEnv
      ["W", "O", "R", "L", "D", "ENTER", "L", "A", "T", "H", "E", "ENTER", "Q"]
      (initialState helloEnv) _ Reachable.init (by decide)
  ⟨hreach, (cursor_bounds helloEnv twoRowsState hreach).1,
    (cursor_bounds helloEnv twoRowsState hreach).2.1⟩

/-- C15: in every reachable state every cell of a row with index `> curRow`
is empty, and in the active row every cell at a column `≥ curCol` is empty
(the cells are those of the grid: row `< NUMBER_OF_TRIES`, column
`< letters.length`). -/
theorem cells_after_cursor_empty (env : Env) (s : State) (hreach : Reachable env s) :
    (∀ r c : Nat, r < NUMBER_OF_TRIES → c < env.letters.length → s.curRow < r →
        cellAt s r c = some "") ∧
      (∀ c : Nat, s.curRow < NUMBER_OF_TRIES → c < env.letters.length → s.curCol ≤ c →
        cellAt s s.curRow c = some "") := by
  have h := cursorEmpty_of_reachable env s hreach
  exact ⟨fun r c hr hc hlt => h r c hr hc (Or.inl hlt),
    fun c hr hc hle => h s.curRow c hr hc (Or.inr ⟨rfl, hle⟩)⟩

/-- Witness for C15: in the reachable state of the `HELLO` game with two
completed rows and `Q` typed, cell `(3, 0)` and cell `(2, 1)` are empty. -/
theorem cells_after_cursor_empty_witness :
    Reachable helloEnv twoRowsState ∧ cellAt twoRowsState 3 0 = some "" ∧
      cellAt twoRowsState 2 1 = some "" :=
  have hreach : Reachable helloEnv twoRowsState :=
    reachable_pressAll helloEnv
      ["W", "O", "R", "L", "D", "ENTER", "L", "A", "T", "H", "E", "ENTER", "Q"]
      (initialState helloEnv) _ Reachable.init (by decide)
  ⟨hreach,
    (cells_after_cursor_empty helloEnv twoRowsState hreach).1 3 0 (by decide) (by decide)
      (by decide),
    (cells_after_cursor_empty helloEnv twoRowsState hreach).2 1 (by decide) (by decide)
      (by decide)⟩

/-- C16: in every playing state with the grid of the data model, `curCol = 0`
and `curRow < NUMBER_OF_TRIES`, for every sequence of `letters.length` keys
that are neither `CLEAR` nor `ENTER`, pressing those keys and then `ENTER`
completes with `curRow` increased by exactly 1 and `curCol = 0`, whatever the
keys are. -/
theorem submit_advances_row (env : Env) (s : State) (keys : List String)
    (hne : env.CLEAR ≠ env.ENTER) (hgrid : GridShape env s)
    (hp : s.gameState = GameState.playing) (hrow : s.curRow < NUMBER_OF_TRIES)
    (hcol : s.curCol = 0) (hlen : keys.length = env.letters.length)
    (hkeys : ∀ k ∈ keys, k ≠ env.CLEAR ∧ k ≠ env.ENTER) :
    ∃ s1, pressAll env s (keys ++ [env.ENTER]) = some s1 ∧
      s1.curRow = s.curRow + 1 ∧ s1.curCol = 0 :=
  ⟨_, pressAll_submit env s keys hne hgrid hp hrow hcol hlen hkeys, rfl, rfl⟩

/-- Witness for C16: the keys of `WORLD` and `ENTER` from the initial state
of the `HELLO` game. -/
theorem submit_advances_row_witness :
    ∃ s1, pressAll helloEnv (initialState helloEnv) ["W", "O", "R", "L", "D", "ENTER"] =
        some s1 ∧ s1.curRow = 1 ∧ s1.curCol = 0 :=
  submit_advances_row helloEnv (initialState helloEnv) ["W", "O", "R", "L", "D"] (by decide)
    (by decide) rfl (by decide) rfl rfl (by decide)

/-! ## Initialisation -/

/-- C17, refuted as stated: from the word list `hello`, `hi`, whose words have
different lengths, with the second word drawn, initialisation does not fail:
`letters` is `h`, `i` and the game starts in status `playing` with a grid of
`NUMBER_OF_TRIES` rows of two cells. -/
theorem initialisation_counterexample :
    "hello".length ≠ "hi".length ∧
      letters ["hello", "hi"] 1 = some ["h", "i"] ∧
      initialState ⟨["h", "i"], "CLEAR", "ENTER"⟩ =
        ⟨[["", ""], ["", ""], ["", ""], ["", ""], ["", ""], ["", ""]], 0, 0,
          GameState.playing⟩ := by
  refine ⟨?_, ?_, ?_⟩ <;> decide

/-- C17, amended: initialisation fails (the evaluation of `word.split('')`
throws) when the word list is empty; for every other word list, whether or
not its words have the same length, and every drawn index, it succeeds with
the letters of the drawn word and starts a game in status `playing` whose
grid has `NUMBER_OF_TRIES` rows of as many cells as that word has letters. -/
theorem initialisation (dictionary : List String) (index : Nat) :
    letters [] index = none ∧
      (index < dictionary.length →
        ∃ w, dictionary[index]? = some w ∧ letters dictionary index = some (split w) ∧
          ∀ CLEAR ENTER : String,
            (initialState ⟨split w, CLEAR, ENTER⟩).gameState = GameState.playing ∧
            (initialState ⟨split w, CLEAR, ENTER⟩).curRow = 0 ∧
            (initialState ⟨split w, CLEAR, ENTER⟩).curCol = 0 ∧
            GridShape ⟨split w, CLEAR, ENTER⟩ (initialState ⟨split w, CLEAR, ENTER⟩)) := by
  refine ⟨by simp [letters, word], ?_⟩
  intro h
  refine ⟨dictionary[index], List.getElem?_eq_getElem h, ?_, ?_⟩
  · simp [letters, word, List.getElem?_eq_getElem h]
  · intro CLEAR ENTER
    exact ⟨rfl, rfl, rfl, gridShape_initialState _⟩

/-- Witness for the amended C17: the word list `hello`, `hi` with the second
word drawn. -/
theorem initialisation_witness :
    ∃ w, ["hello", "hi"][1]? = some w ∧ letters ["hello", "hi"] 1 = some (split w) ∧
      ∀ CLEAR ENTER : String,
        (initialState ⟨split w, CLEAR, ENTER⟩).gameState = GameState.playing ∧
        (initialState ⟨split w, CLEAR, ENTER⟩).curRow = 0 ∧
        (initialState ⟨split w, CLEAR, ENTER⟩).curCol = 0 ∧
        GridShape ⟨split w, CLEAR, ENTER⟩ (initialState ⟨split w, CLEAR, ENTER⟩) :=
  (initialisation ["hello", "hi"] 1).2 (by decide)

/-! ## The last attempt, the round trip and the keyboard lists -/

/-- C18: from the initial state, when `NUMBER_OF_TRIES - 1` complete guesses
that differ from the puzzle word are submitted and then the puzzle word
itself, all of this completes with `curRow = NUMBER_OF_TRIES` and status
`won`, not `lost`. -/
theorem win_on_last_attempt (env : Env) (guesses : List (List String))
    (hne : env.CLEAR ≠ env.ENTER)
    (hkeys : ∀ k ∈ env.letters, k ≠ env.CLEAR ∧ k ≠ env.ENTER)
    (hlen : guesses.length + 1 = NUMBER_OF_TRIES)
    (hwrong : ∀ g ∈ guesses, g.length = env.letters.length ∧ g ≠ env.letters ∧
      ∀ k ∈ g, k ≠ env.CLEAR ∧ k ≠ env.ENTER) :
    ∃ s1, submitAll env (initialState env) (guesses ++ [env.letters]) = some s1 ∧
      s1.curRow = NUMBER_OF_TRIES ∧ s1.gameState = GameState.won := by
  obtain ⟨s0, h1, h2, h3, h4, h5⟩ := submitAll_wrong_state env hne guesses (initialState env)
    (inv_initialState env) rfl rfl (by simp only [initialState]; omega) hwrong
  have hrow0 : s0.curRow = guesses.length := by simpa [initialState] using h2
  have hp : s0.gameState = GameState.playing := by
    rw [h5, if_neg]
    simp only [initialState]
    omega
  have hstep := pressAll_submit env s0 env.letters hne h4.1 hp (h4.2.2.2.1 hp) h3 rfl hkeys
  refine ⟨⟨s0.rows.set s0.curRow env.letters, s0.curRow + 1, 0,
    statusAfter env s0 env.letters⟩, ?_, ?_, ?_⟩
  · rw [submitAll_append, h1]
    simp only [Option.some_bind, submitAll, hstep]
  · show s0.curRow + 1 = NUMBER_OF_TRIES
    omega
  · simp [statusAfter]

/-- Witness for C18: five times `WORLD`, then `HELLO`, in the `HELLO` game. -/
theorem win_on_last_attempt_witness :
    ∃ s1, submitAll helloEnv (initialState helloEnv)
        (List.replicate 5 ["W", "O", "R", "L", "D"] ++ [["H", "E", "L", "L", "O"]]) = some s1 ∧
      s1.curRow = NUMBER_OF_TRIES ∧ s1.gameState = GameState.won :=
  win_on_last_attempt helloEnv (List.replicate 5 ["W", "O", "R", "L", "D"]) (by decide)
    (by decide) (by decide) (by decide)

/-- C19: in every reachable playing state with `curCol < letters.length`, for
every key that is neither `CLEAR` nor `ENTER` (every letter key),
`onKeyPressed` with that key followed by `onKeyPressed` with `CLEAR` returns
exactly the original state. -/
theorem type_then_erase (env : Env) (s : State) (key : String)
    (hC : key ≠ env.CLEAR) (hE : key ≠ env.ENTER) (hreach : Reachable env s)
    (hp : s.gameState = GameState.playing) (hcol : s.curCol < env.letters.length) :
    ∃ s1, onKeyPressed env s key = some s1 ∧ onKeyPressed env s1 env.CLEAR = some s := by
  have hinv := inv_of_reachable env s hreach
  have hrowlt := hinv.2.2.2.1 hp
  obtain ⟨row0, h0, hlen0⟩ := hinv.1.row_zero
  obtain ⟨row, hr, hlen⟩ := hinv.1.row_at hrowlt
  have hr1 : s.curRow < s.rows.length := by rw [hinv.1.1]; exact hrowlt
  have hempty : cellAt s s.curRow s.curCol = some "" :=
    cursorEmpty_of_reachable env s hreach s.curRow s.curCol hrowlt hcol (Or.inr ⟨rfl, Nat.le_refl _⟩)
  have hcell : row[s.curCol]? = some "" := by
    simpa [cellAt, hr] using hempty
  refine ⟨_, onKeyPressed_other env s key row0 row hC hE hp h0 hr (by omega) (by omega), ?_⟩
  rw [onKeyPressed_CLEAR_pos env
    ⟨s.rows.set s.curRow (row.set s.curCol key), s.curRow, s.curCol + 1, s.gameState⟩
    (row.set s.curCol key) hp (by simp [List.getElem?_set_self hr1]) (Nat.succ_pos _)
    (by simp; omega)]
  simp only [Nat.add_sub_cancel, List.set_set, set_eq_self_of_getElem? row _ _ hcell,
    set_eq_self_of_getElem? s.rows _ _ hr]

/-- Witness for C19: the key `U` and then `CLEAR` in the `HELLO` game with
two completed rows and `Q` typed. -/
theorem type_then_erase_witness :
    ∃ s1, onKeyPressed helloEnv twoRowsState "U" = some s1 ∧
      onKeyPressed helloEnv s1 "CLEAR" = some twoRowsState :=
  type_then_erase helloEnv twoRowsState "U" (by decide) (by decide)
    (reachable_pressAll helloEnv
      ["W", "O", "R", "L", "D", "ENTER", "L", "A", "T", "H", "E", "ENTER", "Q"]
      (initialState helloEnv) _ Reachable.init (by decide)) rfl (by decide)

/-- The colour of a cell that holds `x`, by the three tests of
`getCellBGColor`. -/
theorem getCellBGColor_of_cellAt (env : Env) (s : State) (i j : Nat) (x : String)
    (hcell : cellAt s i j = some x) :
    getCellBGColor env s i j =
      some (if i ≥ s.curRow then Color.black
        else if some x = env.letters[j]? then Color.primary
        else if x ∈ env.letters then Color.secondary
        else Color.darkgrey) := by
  unfold cellAt at hcell
  unfold getCellBGColor
  cases hr : s.rows[i]? with
  | none => rw [hr] at hcell; cases hcell
  | some r =>
    rw [hr] at hcell
    simp only at hcell
    simp only [hcell, includes]
    by_cases h1 : i ≥ s.curRow
    · simp [h1]
    · by_cases h2 : some x = env.letters[j]?
      · simp [h1, h2]
      · by_cases h3 : x ∈ env.letters <;> simp [h1, h2, h3]

theorem mem_letters_of_coloured (env : Env) (s : State) (i j : Nat) (x : String)
    (hcell : cellAt s i j = some x)
    (hcol : getCellBGColor env s i j = some Color.primary ∨
      getCellBGColor env s i j = some Color.secondary) : x ∈ env.letters := by
  rw [getCellBGColor_of_cellAt env s i j x hcell] at hcol
  by_cases h1 : i ≥ s.curRow
  · simp [h1] at hcol
  · by_cases h2 : some x = env.letters[j]?
    · exact List.mem_iff_getElem?.mpr ⟨j, h2.symm⟩
    · by_cases h3 : x ∈ env.letters
      · exact h3
      · simp [h1, h2, h3] at hcol

theorem not_mem_letters_of_darkgrey (env : Env) (s : State) (i j : Nat) (x : String)
    (hcell : cellAt s i j = some x)
    (hcol : getCellBGColor env s i j = some Color.darkgrey) : x ∉ env.letters := by
  rw [getCellBGColor_of_cellAt env s i j x hcell] at hcol
  intro hx
  by_cases h1 : i ≥ s.curRow
  · simp [h1] at hcol
  · by_cases h2 : some x = env.letters[j]?
    · simp [h1, h2] at hcol
    · simp [h1, h2, hx] at hcol

/-- C20: for every state, a letter of `greyCaps` is neither in `greenCaps`
nor in `yellowCaps`; a letter may be in both `greenCaps` and `yellowCaps`, as
`L` is in the `HELLO` game after `WORLD` and `LATHE`. -/
theorem grey_consistent (env : Env) (s : State) (x : String) :
    (x ∈ greyCaps env s → x ∉ greenCaps env s ∧ x ∉ yellowCaps env s) ∧
      ∃ (s2 : State) (y : String), Reachable helloEnv s2 ∧
        y ∈ greenCaps helloEnv s2 ∧ y ∈ yellowCaps helloEnv s2 := by
  constructor
  · intro hgrey
    obtain ⟨i, j, h1, h2⟩ := (mem_getAllLettersWithColor env s Color.darkgrey x).mp hgrey
    have hnot := not_mem_letters_of_darkgrey env s i j x h1 h2
    constructor
    · intro hgreen
      obtain ⟨i1, j1, h3, h4⟩ := (mem_getAllLettersWithColor env s Color.primary x).mp hgreen
      exact hnot (mem_letters_of_coloured env s i1 j1 x h3 (Or.inl h4))
    · intro hyellow
      obtain ⟨i1, j1, h3, h4⟩ :=
        (mem_getAllLettersWithColor env s Color.secondary x).mp hyellow
      exact hnot (mem_letters_of_coloured env s i1 j1 x h3 (Or.inr h4))
  · refine ⟨twoRowsState, "L", ?_, by decide, by decide⟩
    exact reachable_pressAll helloEnv
      ["W", "O", "R", "L", "D", "ENTER", "L", "A", "T", "H", "E", "ENTER", "Q"]
      (initialState helloEnv) _ Reachable.init (by decide)

/-- Witness for C20: in the `HELLO` game after `WORLD` and `LATHE`, the
letter `W` is in `greyCaps`, and neither in `greenCaps` nor in
`yellowCaps`. -/
theorem grey_consistent_witness :
    "W" ∈ greyCaps helloEnv twoRowsState ∧ "W" ∉ greenCaps helloEnv twoRowsState ∧
      "W" ∉ yellowCaps helloEnv twoRowsState :=
  ⟨by decide, (grey_consistent helloEnv twoRowsState "W").1 (by decide)⟩

end WordleRN
